import Mathlib

/-!
Shallow embedding of the AutoCSV Cleaner engine (the `detectIssues`,
`cleanData`, `quantile` and `median` functions of the single source file,
a React component).  Cells are modelled as text; numbers are modelled as
exact rationals (the source uses JS floating point — the claims checked
here concern the algorithms, not rounding).  Rows are keyed positionally:
the source keys rows by header name when it converts a row array to an
object, which coincides with positional keying whenever header names are
distinct (the spec treats positional identity as authoritative).
-/

namespace AutoCSV

/-! ### JS string primitives -/

/-- Code points JavaScript's `String.prototype.trim` removes (WhiteSpace
and LineTerminator sets: tab, LF, VT, FF, CR, space, NBSP, and the
Unicode space separators, line/paragraph separators and BOM). -/
def jsSpaceCodes : List Nat :=
  [0x09, 0x0a, 0x0b, 0x0c, 0x0d, 0x20, 0xa0, 0x1680,
   0x2000, 0x2001, 0x2002, 0x2003, 0x2004, 0x2005, 0x2006, 0x2007,
   0x2008, 0x2009, 0x200a, 0x2028, 0x2029, 0x202f, 0x205f, 0x3000, 0xfeff]

def isJsSpace (c : Char) : Bool := c.toNat ∈ jsSpaceCodes

def jsTrimList (l : List Char) : List Char :=
  ((l.dropWhile isJsSpace).reverse.dropWhile isJsSpace).reverse

/-- Model of JS `value.trim()`. -/
def jsTrim (s : String) : String := ⟨jsTrimList s.data⟩

/-- The non-breaking space character (`' '`). -/
def nbsp : Char := Char.ofNat 0xa0

/-- Model of JS `value.replace(/ /g, ' ')`. -/
def replaceNBSP (s : String) : String :=
  ⟨s.data.map (fun c => if c = nbsp then ' ' else c)⟩

/-- Model of JS `value.padStart(n, c)`. -/
def padStart (n : Nat) (c : Char) (s : String) : String :=
  ⟨List.replicate (n - s.length) c ++ s.data⟩

/-! ### Numeric parsing

`parseNum` models JS `parseFloat` on plain decimal literals (optional
sign, integer digits, optional fractional digits).  `parseFloat`'s
extras — leading-whitespace skipping, prefix parsing of trailing
garbage, exponents, `Infinity` — are outside the modelled fragment; on
the modelled fragment the parsed value is exact. -/

def digitsVal (l : List Char) : Nat :=
  l.foldl (fun acc c => acc * 10 + (c.toNat - 48)) 0

def parseNum (s : String) : Option ℚ :=
  let cs := s.data
  let sgn : ℚ × List Char :=
    match cs with
    | '-' :: r => (-1, r)
    | '+' :: r => (1, r)
    | _ => (1, cs)
  let ip := sgn.2.takeWhile Char.isDigit
  let rest := sgn.2.dropWhile Char.isDigit
  match rest with
  | [] => if ip.isEmpty then none else some (sgn.1 * digitsVal ip)
  | '.' :: fp =>
    if fp.all Char.isDigit ∧ (ip ≠ [] ∨ fp ≠ []) then
      some (sgn.1 * ((digitsVal ip : ℚ) + (digitsVal fp : ℚ) / (10 : ℚ) ^ fp.length))
    else none
  | _ => none

/-! ### Stats helpers (source `quantile` and `median`) -/

def sortQ (l : List ℚ) : List ℚ := l.insertionSort (· ≤ ·)

/-- Source `quantile` (lines 170–182): sort ascending, take the
linear-interpolation estimate at rank `(n-1)*q`; `0` for empty input.
Indices are naturals: the JS `NaN` outcomes for `q` outside `[0,1]` on
multi-element samples are outside the modelled domain (no claim, and no
call in the source, exercises them). -/
def quantile (arr : List ℚ) (q : ℚ) : ℚ :=
  if arr.isEmpty then 0
  else
    let sorted := sortQ arr
    let pos : ℚ := ((arr.length : ℚ) - 1) * q
    let base : Nat := (⌊pos⌋).toNat
    let rest : ℚ := pos - (base : ℚ)
    if base + 1 < sorted.length then
      sorted.getD base 0 + rest * (sorted.getD (base + 1) 0 - sorted.getD base 0)
    else
      sorted.getD base 0

/-- The spec's wording of `quantile`, for the refinement claim C7: sort
ascending, rank `pos = (n-1)*q`, interpolate between the floor rank and
the ceil rank by the fractional remainder; `0` for empty input. -/
def quantileSpecLI (arr : List ℚ) (q : ℚ) : ℚ :=
  if arr.isEmpty then 0
  else
    let sorted := sortQ arr
    let pos : ℚ := ((arr.length : ℚ) - 1) * q
    let lo : Nat := (⌊pos⌋).toNat
    let hi : Nat := (⌈pos⌉).toNat
    let rest : ℚ := pos - (lo : ℚ)
    sorted.getD lo 0 + rest * (sorted.getD hi 0 - sorted.getD lo 0)

/-- Source `median` (lines 256–267): sort ascending; average of the two
central values for even length, the central value for odd length, `0`
for empty input. -/
def median (values : List ℚ) : ℚ :=
  if values.isEmpty then 0
  else
    let sorted := sortQ values
    let mid := sorted.length / 2
    if sorted.length % 2 = 0 then
      (sorted.getD (mid - 1) 0 + sorted.getD mid 0) / 2
    else
      sorted.getD mid 0

/-! ### Table model and row/column utilities -/

/-- Model of the source's per-row objectification
`headers.forEach((header, i) => obj[header] = row[i] || '')`:
take the first `w` cells, padding absent (ragged) or empty cells with
the empty string (`row[i] || ''` yields `''` both for `undefined` and
for `''`). -/
def normRow (w : Nat) (r : List String) : List String :=
  (List.range w).map (fun i => r.getD i "")

/-- A parsed table: the header row plus the data rows, all text
(Papa.parse with `header:false` yields string cells). -/
structure Table where
  headers : List String
  rows : List (List String)
deriving DecidableEq, Repr

/-- The source's `objectData`: every row normalised to header width. -/
def normData (headers : List String) (rows : List (List String)) : List (List String) :=
  rows.map (normRow headers.length)

/-- Column `c` of a row matrix. -/
def col (rows : List (List α)) (c : Nat) (d : α) : List α :=
  rows.map (fun r => r.getD c d)

/-- Replace the value at position `c` (model of `{...row, [column]: v}`
under positional keying; a no-op past the end of the row). -/
def modifyAt (f : α → α) : Nat → List α → List α
  | _, [] => []
  | 0, a :: l => f a :: l
  | n + 1, a :: l => a :: modifyAt f n l

/-- Apply `f` to column `c` of every row. -/
def mapCol (f : α → α) (c : Nat) (rows : List (List α)) : List (List α) :=
  rows.map (modifyAt f c)

/-- Model of `Math.max(...lengths)` over a column, with `0` for no rows (the
source never reaches that case: cleaning returns early on an empty
table). -/
def maxL (vs : List String) : Nat :=
  (vs.map String.length).foldl max 0

/-- Model of lodash `_.uniqBy(objectData, row => JSON.stringify(row))`:
keep the first occurrence of every distinct row.  `JSON.stringify`
equality of the row objects coincides with field-list equality (same
keys in the same order). -/
def dedupSeen [DecidableEq α] (seen : List α) : List α → List α
  | [] => []
  | a :: l => if a ∈ seen then dedupSeen seen l else a :: dedupSeen (a :: seen) l

def dedupFirst [DecidableEq α] (l : List α) : List α := dedupSeen [] l

/-! ### Issue report -/

/-- The source's `Issues` record.  Maps keyed by column name become
association lists keyed by column index, in the source's insertion
order (header order); the constant marker strings of `whitespace` and
`leadingZeros` are kept.  The optional `ragged`/`emptyRows` structure
fields are never populated by the source and are omitted. -/
structure Issues where
  missing : List (Nat × Nat)
  duplicates : Nat
  whitespace : List (Nat × String)
  leadingZeros : List (Nat × String)
  outliers : List (Nat × Nat)
  structColumns : Nat
  structRowCount : Nat
deriving DecidableEq, Repr

/-- Model of `!row[header] || row[header].toString().trim() === ''`. -/
def isMissingCell (s : String) : Bool := jsTrim s = ""

/-- Model of `value !== value.trim() || value.includes(nbsp)`. -/
def hasWsIssue (s : String) : Bool := s ≠ jsTrim s || s.data.contains nbsp

/-- Model of the leading-zero test: all digits, starting with `'0'`, length over 1. -/
def hasLeadingZero (s : String) : Bool :=
  !s.data.isEmpty && s.data.all Char.isDigit && s.data.headD ' ' = '0' && s.length > 1

/-- Per-column body of the missing-value loop: count the rows whose
value for the column is missing, record the count if positive. -/
def missingEntry (objectData : List (List String)) (i : Nat) : Option (Nat × Nat) :=
  let cnt := (objectData.filter (fun r => isMissingCell (r.getD i ""))).length
  if 0 < cnt then some (i, cnt) else none

/-- Per-column body of the whitespace loop. -/
def wsEntry (objectData : List (List String)) (i : Nat) : Option (Nat × String) :=
  if objectData.any (fun r => hasWsIssue (r.getD i "")) then
    some (i, "leading_or_trailing_space")
  else none

/-- Per-column body of the leading-zero loop. -/
def lzEntry (objectData : List (List String)) (i : Nat) : Option (Nat × String) :=
  if objectData.any (fun r => hasLeadingZero (r.getD i "")) then
    some (i, "leading_zeros_lost")
  else none

/-- Per-column body of the outlier loop: for more than 10 parseable
values, count those outside the `Q1 - 3*IQR` / `Q3 + 3*IQR` fences and
record the count if nonzero. -/
def outlierEntry (objectData : List (List String)) (i : Nat) : Option (Nat × Nat) :=
  let nv := objectData.filterMap (fun r => parseNum (r.getD i ""))
  if 10 < nv.length then
    let q1 := quantile nv (1/4)
    let q3 := quantile nv (3/4)
    let iqr := q3 - q1
    let outs := nv.filter (fun v => v < q1 - 3 * iqr ∨ q3 + 3 * iqr < v)
    if 0 < outs.length then some (i, outs.length) else none
  else none

/-- Source `detectIssues` (lines 114–203). -/
def detectIssues (headers : List String) (data : List (List String)) : Issues :=
  let w := headers.length
  let objectData := normData headers data
  { missing := (List.range w).filterMap (missingEntry objectData)
    duplicates := objectData.length - (dedupFirst objectData).length
    whitespace := (List.range w).filterMap (wsEntry objectData)
    leadingZeros := (List.range w).filterMap (lzEntry objectData)
    outliers := (List.range w).filterMap (outlierEntry objectData)
    structColumns := w
    structRowCount := data.length }

def detect (t : Table) : Issues := detectIssues t.headers t.rows

/-! ### Cleaning log and cells -/

inductive LogType where
  | success | info | warning | error
deriving DecidableEq, Repr

/-- The source's log messages are template strings; the constructors
carry the template slots (the count of removed/filled items and the
column name shown in the message). -/
inductive LogMsg where
  | removedDuplicates (k : Nat)
  | fixedWhitespace (column : String)
  | restoredZeros (column : String)
  | filledMissing (k : Nat) (column : String)
  | complete
deriving DecidableEq, Repr

structure LogEntry where
  msg : LogMsg
  type : LogType
deriving DecidableEq, Repr

/-- A cleaned cell: still text, or the numeric median filled in by the
imputation step (JS leaves it as a number in the row object). -/
inductive Cell where
  | str (s : String)
  | num (q : ℚ)
deriving DecidableEq, Repr

/-- Text view of a cell.  During a cleaning run every cell read by the
imputation step is still a `str` (each flagged column is processed
exactly once, and only its own step turns its cells numeric), so the
`num` branch is unreachable there; `""` is a placeholder. -/
def cellStr : Cell → String
  | .str s => s
  | .num _ => ""

/-- Model of the whitespace fix on one value: NBSP substitution, then trim. -/
def wsClean (s : String) : String := jsTrim (replaceNBSP s)

/-- Model of `(row[column] && row[column].toString().trim()) || fillValue` on a
text cell; numeric cells are unreachable here (see `cellStr`). -/
def fillCell (fv : Cell) : Cell → Cell
  | .str s => if jsTrim s = "" then fv else .str (jsTrim s)
  | .num q => .num q

/-- First key reaching the maximal count in a left-to-right scan:
`_.maxBy(Object.keys(counts), key => counts[key])` over
`counts = _.countBy(nonEmptyValues)` (lodash `maxBy` replaces the
current best only on a strictly greater value, and `countBy` lists keys
in first-occurrence order).  `'Unknown'` replaces the `undefined`
returned on an empty list. -/
def modeOf (l : List String) : String :=
  match (dedupFirst l).foldl (fun acc k =>
      match acc with
      | none => some k
      | some b => if l.count b < l.count k then some k else acc) none with
  | some m => m
  | none => "Unknown"

/-! ### Cleaner pipeline (source `cleanData`, lines 206–314) -/

/-- Step 1: `if (issues.duplicates > 0) { uniqBy ... }` with its log
entry. -/
def dedupStep (iss : Issues) (objectData : List (List String)) :
    List (List String) × List LogEntry :=
  if 0 < iss.duplicates then
    let od := dedupFirst objectData
    (od, [⟨.removedDuplicates (objectData.length - od.length), .success⟩])
  else (objectData, [])

/-- Step 2: per flagged column, NBSP-substitute and trim every value. -/
def wsStep (headers : List String) (cols : List Nat) (rows : List (List String)) :
    List (List String) × List LogEntry :=
  cols.foldl (fun st c =>
      (mapCol wsClean c st.1, st.2 ++ [⟨.fixedWhitespace (headers.getD c ""), .success⟩]))
    (rows, [])

/-- Step 3: per flagged column, left-pad every value with `'0'` to the
maximum length currently observed in that column. -/
def lzStep (headers : List String) (cols : List Nat) (rows : List (List String)) :
    List (List String) × List LogEntry :=
  cols.foldl (fun st c =>
      let m := maxL (col st.1 c "")
      (mapCol (padStart m '0') c st.1,
       st.2 ++ [⟨.restoredZeros (headers.getD c ""), .success⟩]))
    (rows, [])

/-- One iteration of the missing-value loop, for the report entry
`cn = (column, detected count)`: gather the non-empty values of the
column; if there are any, fill with the numeric median when every one
parses as a number, else with the mode, and log the detected missing
count; a column with no non-empty values is skipped entirely. -/
def fillOne (headers : List String) (st : List (List Cell) × List LogEntry)
    (cn : Nat × Nat) : List (List Cell) × List LogEntry :=
  let c := cn.1
  let colVals := (col st.1 c (Cell.str "")).map cellStr
  let nonEmpty := colVals.filter (fun v => jsTrim v ≠ "")
  if nonEmpty.isEmpty then st
  else
    let numeric := nonEmpty.filterMap parseNum
    let fv : Cell :=
      if numeric.length = nonEmpty.length then .num (median numeric)
      else .str (modeOf nonEmpty)
    (mapCol (fillCell fv) c st.1,
     st.2 ++ [⟨.filledMissing cn.2 (headers.getD c ""), .success⟩])

/-- Step 4: the missing-value loop over the report's flagged columns. -/
def fillStep (headers : List String) (miss : List (Nat × Nat)) (rows : List (List Cell)) :
    List (List Cell) × List LogEntry :=
  miss.foldl (fillOne headers) (rows, [])

/-- Source `cleanData` body: the four steps in order, the log in push
order, and the completion entry appended last (the source pushes it
onto the same array after handing the array to the state hook).  The
final back-conversion `objectData.map(row => headers.map(h => row[h]))`
is the identity on the positionally keyed rows. -/
def cleanData (headers : List String) (rows : List (List String)) (iss : Issues) :
    List (List Cell) × List LogEntry :=
  let objectData := normData headers rows
  let s1 := dedupStep iss objectData
  let s2 := wsStep headers (iss.whitespace.map Prod.fst) s1.1
  let s3 := lzStep headers (iss.leadingZeros.map Prod.fst) s2.1
  let s4 := fillStep headers iss.missing (s3.1.map (fun r => r.map Cell.str))
  (s4.1, s1.2 ++ s2.2 ++ s3.2 ++ s4.2 ++ [⟨.complete, .success⟩])

/-- The string matrix after steps 1–3, entering the imputation step. -/
def stage3 (headers : List String) (rows : List (List String)) (iss : Issues) :
    List (List String) :=
  (lzStep headers (iss.leadingZeros.map Prod.fst)
    (wsStep headers (iss.whitespace.map Prod.fst)
      (dedupStep iss (normData headers rows)).1).1).1

/-! ### Component state (for the frame claim) -/

/-- The slice of the React component state the engine touches. -/
structure AppState where
  csvData : List (List String)
  headers : List String
  issues : Option Issues
  cleanedData : List (List Cell)
  cleaningLog : List LogEntry
deriving Repr

/-- The `cleanData` callback as a state transformer: the guard
`if (!issues || csvData.length === 0) return;` and then the
`setCleanedData`/`setCleaningLog` updates. -/
def cleanAction (s : AppState) : AppState :=
  match s.issues with
  | none => s
  | some iss =>
    if s.csvData.isEmpty then s
    else
      let r := cleanData s.headers s.csvData iss
      { s with cleanedData := r.1, cleaningLog := r.2 }

/-! ### Spec-side vocabulary used by claim statements -/

/-- Data part of the whitespace pass. -/
def wsApply (cols : List Nat) (rows : List (List String)) : List (List String) :=
  cols.foldl (fun rs c => mapCol wsClean c rs) rows

/-- Data part of the leading-zero pass. -/
def lzApply (cols : List Nat) (rows : List (List String)) : List (List String) :=
  cols.foldl (fun rs c => mapCol (padStart (maxL (col rs c "")) '0') c rs) rows

/-- Data part of one missing-value iteration. -/
def fillOneData (rows : List (List Cell)) (c : Nat) : List (List Cell) :=
  let colVals := (col rows c (Cell.str "")).map cellStr
  let nonEmpty := colVals.filter (fun v => jsTrim v ≠ "")
  if nonEmpty.isEmpty then rows
  else
    let numeric := nonEmpty.filterMap parseNum
    let fv : Cell :=
      if numeric.length = nonEmpty.length then .num (median numeric)
      else .str (modeOf nonEmpty)
    mapCol (fillCell fv) c rows

/-- Data part of the missing-value pass. -/
def fillApply (miss : List (Nat × Nat)) (rows : List (List Cell)) : List (List Cell) :=
  miss.foldl (fun d cn => fillOneData d cn.1) rows

/-- Rows all of width `w`. -/
def allLen (w : Nat) (rows : List (List α)) : Prop := ∀ r ∈ rows, r.length = w

/-- The fill value for a list of non-empty column values: the numeric
median when every value parses, else the mode. -/
def fillValueOf (nonEmpty : List String) : Cell :=
  if (nonEmpty.filterMap parseNum).length = nonEmpty.length then
    .num (median (nonEmpty.filterMap parseNum))
  else .str (modeOf nonEmpty)

/-- The effect of one missing-value iteration on its own column. -/
def fillColVals (cells : List Cell) : List Cell :=
  let nonEmpty := (cells.map cellStr).filter (fun v => jsTrim v ≠ "")
  if nonEmpty.isEmpty then cells
  else cells.map (fillCell (fillValueOf nonEmpty))

/-- The string matrix after steps 1–2, entering the zero-padding step. -/
def stage2 (headers : List String) (rows : List (List String)) (iss : Issues) :
    List (List String) :=
  (wsStep headers (iss.whitespace.map Prod.fst)
    (dedupStep iss (normData headers rows)).1).1

/-- Does a log entry report a missing-value fill for the named column? -/
def isFillEntryFor (name : String) (e : LogEntry) : Bool :=
  match e.msg with
  | .filledMissing _ n => n = name
  | _ => false

/-- The parseable numeric values of column `j` of a row matrix. -/
def numsAt (od : List (List String)) (j : Nat) : List ℚ :=
  od.filterMap (fun r => parseNum (r.getD j ""))

/-- Numeric values of column `i` of a table (JS: `parseFloat` each cell,
keep the parseable ones). -/
def colNums (t : Table) (i : Nat) : List ℚ :=
  numsAt (normData t.headers t.rows) i

/-- The values flagged as extreme outliers: below `Q1 - 3*IQR` or above
`Q3 + 3*IQR`, with `IQR = Q3 - Q1`. -/
def iqrOutliers (nv : List ℚ) : List ℚ :=
  let q1 := quantile nv (1/4)
  let q3 := quantile nv (3/4)
  let iqr := q3 - q1
  nv.filter (fun v => v < q1 - 3 * iqr ∨ q3 + 3 * iqr < v)

/-! ## Lemmas about the stats helpers -/

lemma quantile_eq_spec (arr : List ℚ) (q : ℚ) (hq0 : 0 ≤ q) (hq1 : q ≤ 1) :
    quantile arr q = quantileSpecLI arr q := by
  rcases eq_or_ne arr [] with rfl | hne
  · rfl
  have he : arr.isEmpty = false := by simpa using hne
  have hn1 : 1 ≤ arr.length := List.length_pos.mpr hne
  simp only [quantile, quantileSpecLI, he, Bool.false_eq_true, if_false]
  set n := arr.length with hn
  set s := sortQ arr with hs
  set pos : ℚ := ((n : ℚ) - 1) * q with hposdef
  have hn1q : (1 : ℚ) ≤ (n : ℚ) := by exact_mod_cast hn1
  have hpos0 : 0 ≤ pos := mul_nonneg (by linarith) hq0
  have hfl0 : (0 : ℤ) ≤ ⌊pos⌋ := Int.floor_nonneg.mpr hpos0
  set b := (⌊pos⌋).toNat with hb
  have hbcast : ((b : ℕ) : ℚ) = ((⌊pos⌋ : ℤ) : ℚ) := by
    rw [hb]; exact_mod_cast congrArg (fun z : ℤ => (z : ℚ)) (Int.toNat_of_nonneg hfl0)
  have hble : (b : ℚ) ≤ pos := by rw [hbcast]; exact Int.floor_le pos
  have hpos_le : pos ≤ (n : ℚ) - 1 := by
    calc pos = ((n : ℚ) - 1) * q := hposdef
    _ ≤ ((n : ℚ) - 1) * 1 := by
        apply mul_le_mul_of_nonneg_left hq1; linarith
    _ = (n : ℚ) - 1 := mul_one _
  have hslen : s.length = n := by
    rw [hs]; exact List.length_insertionSort _ _
  by_cases hlt : b + 1 < s.length
  · rw [if_pos hlt]
    by_cases hz : pos = (b : ℚ)
    · rw [hz]; simp
    · have hfr : Int.fract pos ≠ 0 := by
        rw [Int.fract]
        intro h
        apply hz
        have : pos = ((⌊pos⌋ : ℤ) : ℚ) := by linarith
        rw [this, hbcast]
      have hceil : ⌈pos⌉ = ⌊pos⌋ + 1 := by
        rcases Int.fract_eq_zero_or_add_one_sub_ceil pos with h | h
        · exact absurd h hfr
        · have h2 : pos - ((⌊pos⌋ : ℤ) : ℚ) = pos + 1 - ((⌈pos⌉ : ℤ) : ℚ) := by
            rw [Int.self_sub_floor]; exact h
          have : ((⌈pos⌉ : ℤ) : ℚ) = ((⌊pos⌋ + 1 : ℤ) : ℚ) := by push_cast; linarith
          exact_mod_cast this
      have htn : (⌈pos⌉).toNat = b + 1 := by rw [hceil, hb]; omega
      rw [htn]
  · rw [if_neg hlt]
    have hb1n : b + 1 = n := by
      have h1 : (b : ℚ) ≤ (n : ℚ) - 1 := le_trans hble hpos_le
      have h2 : b + 1 ≤ n := by
        have : ((b : ℕ) : ℚ) + 1 ≤ (n : ℚ) := by linarith
        exact_mod_cast this
      have h3 : ¬b + 1 < n := by rw [← hslen]; exact hlt
      omega
    have hpb : pos = (b : ℚ) := by
      have : ((b : ℕ) : ℚ) = (n : ℚ) - 1 := by
        have : ((b : ℕ) : ℚ) + 1 = (n : ℚ) := by
          exact_mod_cast congrArg (fun k : ℕ => (k : ℚ)) hb1n
        linarith
      linarith
    rw [← hpb]
    simp

lemma quantile_nil (q : ℚ) : quantile [] q = 0 := rfl

lemma quantile_single (q : ℚ) : quantile [5] q = 5 := by
  have h : ((([5] : List ℚ).length : ℚ) - 1) * q = 0 := by norm_num
  simp [quantile, sortQ, h]

/-! ## Claim theorems -/

/-! ## Lemmas about the issue detector -/

lemma mem_filterMap_range {β : Type} (w : Nat) (g : Nat → Option β) (y : β) :
    y ∈ (List.range w).filterMap g ↔ ∃ i, i < w ∧ g i = some y := by
  simp [List.mem_filterMap, List.mem_range]

lemma outlierEntry_eq_some (od : List (List String)) (j : Nat) (p : Nat × Nat) :
    outlierEntry od j = some p ↔
      10 < (numsAt od j).length ∧ 0 < (iqrOutliers (numsAt od j)).length ∧
      p = (j, (iqrOutliers (numsAt od j)).length) := by
  simp only [outlierEntry, iqrOutliers, numsAt]
  split_ifs with h1 h2
  · constructor
    · intro h
      exact ⟨h1, h2, ((Option.some.injEq _ _).mp h).symm⟩
    · rintro ⟨-, -, rfl⟩
      rfl
  · constructor
    · intro h
      exact absurd h (by simp)
    · rintro ⟨-, hpos, -⟩
      exact absurd hpos h2
  · constructor
    · intro h
      exact absurd h (by simp)
    · rintro ⟨h10, -, -⟩
      exact absurd h10 h1

/-- C7: for every sample list and every `q ∈ [0,1]`, `quantile` sorts
the samples ascending and returns the linear-interpolation estimate at
rank `(n-1)*q`, interpolating between the floor and ceil ranks by the
fractional remainder; it returns `0` for the empty list, and the
single-element list `[5]` yields `5` for any `q`. -/
theorem claim7_quantile_interp (arr : List ℚ) (q : ℚ) :
    (0 ≤ q → q ≤ 1 → quantile arr q = quantileSpecLI arr q) ∧
    quantile [] q = 0 ∧ quantile [5] q = 5 :=
  ⟨fun h0 h1 => quantile_eq_spec arr q h0 h1, quantile_nil q, quantile_single q⟩

theorem claim7_quantile_interp_witness :
    (0 : ℚ) ≤ 1/2 ∧ (1/2 : ℚ) ≤ 1 ∧
    (quantile [3, 1, 2] (1/2) = quantileSpecLI [3, 1, 2] (1/2) ∧
     quantile [] (1/2) = 0 ∧ quantile [5] (1/2) = 5) :=
  ⟨by norm_num, by norm_num,
   (claim7_quantile_interp [3, 1, 2] (1/2)).1 (by norm_num) (by norm_num),
   (claim7_quantile_interp [3, 1, 2] (1/2)).2.1,
   (claim7_quantile_interp [3, 1, 2] (1/2)).2.2⟩

/-- C6: for every column, the outliers report carries an entry for
column `i` with count `k` exactly when the column has more than 10
values parseable as numbers, `k` is the number of values below
`Q1 - 3*IQR` or above `Q3 + 3*IQR` (`IQR = Q3 - Q1`, quartiles by
linear-interpolation quantile), and `k` is nonzero. -/
theorem claim6_outlier_report (t : Table) (i k : Nat) :
    (i, k) ∈ (detect t).outliers ↔
      i < t.headers.length ∧ 10 < (colNums t i).length ∧
      k = (iqrOutliers (colNums t i)).length ∧ 0 < k := by
  have hdef : (detect t).outliers = (List.range t.headers.length).filterMap
      (outlierEntry (normData t.headers t.rows)) := rfl
  have hcol : colNums t i = numsAt (normData t.headers t.rows) i := rfl
  rw [hdef, mem_filterMap_range, hcol]
  constructor
  · rintro ⟨j, hj, hsome⟩
    rcases (outlierEntry_eq_some _ _ _).mp hsome with ⟨h10, hpos, hp⟩
    have hji : i = j := congrArg Prod.fst hp
    have hk : k = (iqrOutliers (numsAt (normData t.headers t.rows) j)).length :=
      congrArg Prod.snd hp
    subst hji
    exact ⟨hj, h10, hk, hk ▸ hpos⟩
  · rintro ⟨hi, h10, hk, hk0⟩
    refine ⟨i, hi, (outlierEntry_eq_some _ _ _).mpr ⟨h10, hk ▸ hk0, ?_⟩⟩
    rw [hk]


/-! ## Normalisation lemmas (ragged rows) -/

lemma length_normRow (w : Nat) (r : List String) : (normRow w r).length = w := by
  simp [normRow]

lemma getD_normRow (w i : Nat) (r : List String) :
    (normRow w r).getD i "" = if i < w then r.getD i "" else "" := by
  unfold normRow
  rcases Nat.lt_or_ge i w with h | h
  · rw [if_pos h, List.getD_eq_getElem?_getD, List.getElem?_map,
      List.getElem?_range h]
    rfl
  · rw [if_neg (Nat.not_lt.mpr h), List.getD_eq_getElem?_getD,
      List.getElem?_eq_none (by simpa [length_normRow, normRow] using h)]
    rfl

lemma normRow_idem (w : Nat) (r : List String) :
    normRow w (normRow w r) = normRow w r := by
  unfold normRow
  apply List.map_congr_left
  intro i hi
  have hiw : i < w := List.mem_range.mp hi
  have := getD_normRow w i r
  rw [if_pos hiw] at this
  simpa [normRow] using this

lemma normData_idem (headers : List String) (rows : List (List String)) :
    normData headers (normData headers rows) = normData headers rows := by
  unfold normData
  rw [List.map_map]
  apply List.map_congr_left
  intro r _
  exact normRow_idem _ r

lemma length_normData (headers : List String) (rows : List (List String)) :
    (normData headers rows).length = rows.length := by
  simp [normData]

lemma detectIssues_norm (headers : List String) (rows : List (List String)) :
    detectIssues headers (normData headers rows) = detectIssues headers rows := by
  unfold detectIssues
  rw [normData_idem, length_normData]

lemma cleanData_norm (headers : List String) (rows : List (List String)) (iss : Issues) :
    cleanData headers (normData headers rows) iss = cleanData headers rows iss := by
  unfold cleanData
  rw [normData_idem]


lemma missingEntry_eq_some (od : List (List String)) (j : Nat) (p : Nat × Nat) :
    missingEntry od j = some p ↔
      0 < (od.filter (fun r => isMissingCell (r.getD j ""))).length ∧
      p = (j, (od.filter (fun r => isMissingCell (r.getD j ""))).length) := by
  simp only [missingEntry]
  split_ifs with h
  · constructor
    · intro hh
      exact ⟨h, ((Option.some.injEq _ _).mp hh).symm⟩
    · rintro ⟨-, rfl⟩
      rfl
  · constructor
    · intro hh
      exact absurd hh (by simp)
    · rintro ⟨hp, -⟩
      exact absurd hp h

/-- C8: detection and cleaning see a ragged table exactly as its padded
form (absent trailing cells as empty strings); a missing-report entry
is precisely the count of rows whose (padded) cell for the column is
empty after trimming; and an absent trailing cell always counts as
missing.  Both functions are total, so no input raises an error. -/
theorem claim8_ragged_rows (t : Table) (iss : Issues) :
    detectIssues t.headers (normData t.headers t.rows) = detect t ∧
    cleanData t.headers (normData t.headers t.rows) iss = cleanData t.headers t.rows iss ∧
    (∀ i n, (i, n) ∈ (detect t).missing ↔
      i < t.headers.length ∧ 0 < n ∧
      n = ((normData t.headers t.rows).filter
            (fun r => isMissingCell (r.getD i ""))).length) ∧
    (∀ r ∈ t.rows, ∀ i, r.length ≤ i →
      isMissingCell ((normRow t.headers.length r).getD i "") = true) := by
  refine ⟨detectIssues_norm _ _, cleanData_norm _ _ _, ?_, ?_⟩
  · intro i n
    have hdef : (detect t).missing = (List.range t.headers.length).filterMap
        (missingEntry (normData t.headers t.rows)) := rfl
    rw [hdef, mem_filterMap_range]
    constructor
    · rintro ⟨j, hj, hsome⟩
      rcases (missingEntry_eq_some _ _ _).mp hsome with ⟨hpos, hp⟩
      have hji : i = j := congrArg Prod.fst hp
      have hn : n = ((normData t.headers t.rows).filter
          (fun r => isMissingCell (r.getD j ""))).length := congrArg Prod.snd hp
      subst hji
      exact ⟨hj, hn ▸ hpos, hn⟩
    · rintro ⟨hi, hn0, hn⟩
      refine ⟨i, hi, (missingEntry_eq_some _ _ _).mpr ⟨hn ▸ hn0, ?_⟩⟩
      rw [hn]
  · intro r _ i hle
    rw [getD_normRow]
    rcases Nat.lt_or_ge i t.headers.length with h | h
    · rw [if_pos h]
      have : r.getD i "" = "" := by
        rw [List.getD_eq_getElem?_getD, List.getElem?_eq_none hle]
        rfl
      rw [this]
      rfl
    · rw [if_neg (Nat.not_lt.mpr h)]
      rfl

theorem claim8_ragged_rows_witness :
    detectIssues ["a", "b"] (normData ["a", "b"] [["x"], ["y", "2"]]) =
      detect ⟨["a", "b"], [["x"], ["y", "2"]]⟩ ∧
    (["x"] : List String).length ≤ 1 ∧
    isMissingCell ((normRow 2 ["x"]).getD 1 "") = true := by
  refine ⟨(claim8_ragged_rows ⟨["a", "b"], [["x"], ["y", "2"]]⟩
    (detect ⟨["a", "b"], [["x"], ["y", "2"]]⟩)).1, by decide, ?_⟩
  exact (claim8_ragged_rows ⟨["a", "b"], [["x"], ["y", "2"]]⟩
    (detect ⟨["a", "b"], [["x"], ["y", "2"]]⟩)).2.2.2 ["x"] (by decide) 1 (by decide)


/-! ## Dedup lemmas -/

lemma length_dedupSeen_le [DecidableEq α] (seen l : List α) :
    (dedupSeen seen l).length ≤ l.length := by
  induction l generalizing seen with
  | nil => simp [dedupSeen]
  | cons a l ih =>
    unfold dedupSeen
    split_ifs with h
    · exact le_trans (ih seen) (Nat.le_succ _)
    · simpa using Nat.succ_le_succ (ih (a :: seen))

lemma mem_of_mem_dedupSeen [DecidableEq α] {seen l : List α} {x : α}
    (h : x ∈ dedupSeen seen l) : x ∈ l := by
  induction l generalizing seen with
  | nil => simp [dedupSeen] at h
  | cons a l ih =>
    unfold dedupSeen at h
    split_ifs at h with hs
    · exact List.mem_cons_of_mem _ (ih h)
    · rcases List.mem_cons.mp h with rfl | h2
      · exact List.mem_cons_self _ _
      · exact List.mem_cons_of_mem _ (ih h2)

lemma mem_dedupSeen_of_mem [DecidableEq α] {l : List α} {x : α} (hx : x ∈ l) :
    ∀ seen, x ∉ seen → x ∈ dedupSeen seen l := by
  induction l with
  | nil => cases hx
  | cons a l ih =>
    intro seen hxs
    unfold dedupSeen
    rcases List.mem_cons.mp hx with rfl | h2
    · rw [if_neg hxs]
      exact List.mem_cons_self _ _
    · split_ifs with hs
      · exact ih h2 seen hxs
      · by_cases hxa : x = a
        · subst hxa
          exact List.mem_cons_self _ _
        · exact List.mem_cons_of_mem _
            (ih h2 (a :: seen) (by simp [hxa, hxs]))

lemma not_mem_seen_of_mem_dedupSeen [DecidableEq α] {seen l : List α} {x : α}
    (h : x ∈ dedupSeen seen l) : x ∉ seen := by
  induction l generalizing seen with
  | nil => simp [dedupSeen] at h
  | cons a l ih =>
    unfold dedupSeen at h
    split_ifs at h with hs
    · exact ih h
    · rcases List.mem_cons.mp h with rfl | h2
      · intro hxs
        exact hs hxs
      · intro hxs
        exact (ih h2) (List.mem_cons_of_mem _ hxs)

lemma nodup_dedupSeen [DecidableEq α] (seen l : List α) :
    (dedupSeen seen l).Nodup := by
  induction l generalizing seen with
  | nil => simp [dedupSeen]
  | cons a l ih =>
    unfold dedupSeen
    split_ifs with hs
    · exact ih seen
    · refine List.nodup_cons.mpr ⟨?_, ih (a :: seen)⟩
      intro hmem
      exact (not_mem_seen_of_mem_dedupSeen hmem) (List.mem_cons_self _ _)

lemma dedupSeen_eq_self [DecidableEq α] {l : List α} (hl : l.Nodup) :
    ∀ seen, (∀ x ∈ l, x ∉ seen) → dedupSeen seen l = l := by
  induction l with
  | nil => intro seen _; rfl
  | cons a l ih =>
    intro seen hdis
    unfold dedupSeen
    rw [if_neg (hdis a (List.mem_cons_self _ _))]
    congr 1
    refine ih (List.nodup_cons.mp hl).2 (a :: seen) ?_
    intro x hx
    rcases List.nodup_cons.mp hl with ⟨ha, -⟩
    simp only [List.mem_cons, not_or]
    exact ⟨fun hxa => ha (hxa ▸ hx), hdis x (List.mem_cons_of_mem _ hx)⟩

lemma nodup_dedupFirst [DecidableEq α] (l : List α) : (dedupFirst l).Nodup :=
  nodup_dedupSeen [] l

lemma mem_dedupFirst_iff [DecidableEq α] {l : List α} {x : α} :
    x ∈ dedupFirst l ↔ x ∈ l :=
  ⟨mem_of_mem_dedupSeen, fun h => mem_dedupSeen_of_mem h [] (by simp)⟩

lemma dedupFirst_idem [DecidableEq α] (l : List α) :
    dedupFirst (dedupFirst l) = dedupFirst l :=
  dedupSeen_eq_self (nodup_dedupFirst l) [] (by simp)

lemma length_dedupFirst_le [DecidableEq α] (l : List α) :
    (dedupFirst l).length ≤ l.length :=
  length_dedupSeen_le [] l


/-! ## Pipeline projection lemmas -/

lemma foldl_step_fst {α : Type} (g : List (List α) → Nat → List (List α))
    (m : Nat → LogEntry) :
    ∀ (cols : List Nat) (rows : List (List α)) (acc : List LogEntry),
      (cols.foldl (fun st c => (g st.1 c, st.2 ++ [m c])) (rows, acc)).1 =
        cols.foldl g rows := by
  intro cols
  induction cols with
  | nil => intro rows acc; rfl
  | cons c cols ih => intro rows acc; exact ih (g rows c) _

lemma foldl_step_snd {α : Type} (g : List (List α) → Nat → List (List α))
    (m : Nat → LogEntry) :
    ∀ (cols : List Nat) (rows : List (List α)) (acc : List LogEntry),
      (cols.foldl (fun st c => (g st.1 c, st.2 ++ [m c])) (rows, acc)).2 =
        acc ++ cols.map m := by
  intro cols
  induction cols with
  | nil => intro rows acc; simp
  | cons c cols ih =>
    intro rows acc
    rw [List.foldl_cons, ih (g rows c) (acc ++ [m c]), List.map_cons]
    simp

lemma wsStep_fst (headers : List String) (cols : List Nat) (rows : List (List String)) :
    (wsStep headers cols rows).1 = wsApply cols rows :=
  foldl_step_fst (fun rs c => mapCol wsClean c rs)
    (fun c => ⟨.fixedWhitespace (headers.getD c ""), .success⟩) cols rows []

lemma wsStep_snd (headers : List String) (cols : List Nat) (rows : List (List String)) :
    (wsStep headers cols rows).2 =
      cols.map (fun c => ⟨.fixedWhitespace (headers.getD c ""), .success⟩) :=
  foldl_step_snd (fun rs c => mapCol wsClean c rs)
    (fun c => ⟨.fixedWhitespace (headers.getD c ""), .success⟩) cols rows []

lemma lzStep_fst (headers : List String) (cols : List Nat) (rows : List (List String)) :
    (lzStep headers cols rows).1 = lzApply cols rows :=
  foldl_step_fst (fun rs c => mapCol (padStart (maxL (col rs c "")) '0') c rs)
    (fun c => ⟨.restoredZeros (headers.getD c ""), .success⟩) cols rows []

lemma lzStep_snd (headers : List String) (cols : List Nat) (rows : List (List String)) :
    (lzStep headers cols rows).2 =
      cols.map (fun c => ⟨.restoredZeros (headers.getD c ""), .success⟩) :=
  foldl_step_snd (fun rs c => mapCol (padStart (maxL (col rs c "")) '0') c rs)
    (fun c => ⟨.restoredZeros (headers.getD c ""), .success⟩) cols rows []

lemma fillOne_fst (headers : List String) (st : List (List Cell) × List LogEntry)
    (cn : Nat × Nat) : (fillOne headers st cn).1 = fillOneData st.1 cn.1 := by
  simp only [fillOne, fillOneData]
  split <;> rfl

lemma fillStep_fst (headers : List String) (miss : List (Nat × Nat))
    (rows : List (List Cell)) : (fillStep headers miss rows).1 = fillApply miss rows := by
  suffices h : ∀ (miss : List (Nat × Nat)) (st : List (List Cell) × List LogEntry),
      (miss.foldl (fillOne headers) st).1 = fillApply miss st.1 by
    exact h miss (rows, [])
  intro miss
  induction miss with
  | nil => intro st; rfl
  | cons cn miss ih =>
    intro st
    rw [List.foldl_cons]
    have : fillApply (cn :: miss) st.1 = fillApply miss (fillOneData st.1 cn.1) := rfl
    rw [this, ih (fillOne headers st cn), fillOne_fst]


/-! ## Length preservation -/

lemma length_modifyAt (f : α → α) (c : Nat) (l : List α) :
    (modifyAt f c l).length = l.length := by
  induction l generalizing c with
  | nil => cases c <;> rfl
  | cons a l ih =>
    cases c with
    | zero => rfl
    | succ n => simpa [modifyAt] using ih n

lemma length_mapCol (f : α → α) (c : Nat) (rows : List (List α)) :
    (mapCol f c rows).length = rows.length := by
  simp [mapCol]

lemma length_wsApply (cols : List Nat) (rows : List (List String)) :
    (wsApply cols rows).length = rows.length := by
  induction cols generalizing rows with
  | nil => rfl
  | cons c cols ih =>
    rw [wsApply, List.foldl_cons]
    exact (ih (mapCol wsClean c rows)).trans (length_mapCol _ _ _)

lemma length_lzApply (cols : List Nat) (rows : List (List String)) :
    (lzApply cols rows).length = rows.length := by
  induction cols generalizing rows with
  | nil => rfl
  | cons c cols ih =>
    rw [lzApply, List.foldl_cons]
    exact (ih _).trans (length_mapCol _ _ _)

lemma length_fillOneData (rows : List (List Cell)) (c : Nat) :
    (fillOneData rows c).length = rows.length := by
  simp only [fillOneData]
  split
  · rfl
  · exact length_mapCol _ _ _

lemma length_fillApply (miss : List (Nat × Nat)) (rows : List (List Cell)) :
    (fillApply miss rows).length = rows.length := by
  induction miss generalizing rows with
  | nil => rfl
  | cons cn miss ih =>
    rw [fillApply, List.foldl_cons]
    exact (ih _).trans (length_fillOneData _ _)

/-- The cleaned table, expressed through the staged passes. -/
lemma cleanData_fst (headers : List String) (rows : List (List String)) (iss : Issues) :
    (cleanData headers rows iss).1 =
      fillApply iss.missing ((stage3 headers rows iss).map (fun r => r.map Cell.str)) := by
  have h : (cleanData headers rows iss).1 =
      (fillStep headers iss.missing
        ((lzStep headers (iss.leadingZeros.map Prod.fst)
          (wsStep headers (iss.whitespace.map Prod.fst)
            (dedupStep iss (normData headers rows)).1).1).1.map (fun r => r.map Cell.str))).1 := rfl
  rw [h, fillStep_fst]
  have h2 : stage3 headers rows iss =
      (lzStep headers (iss.leadingZeros.map Prod.fst)
        (wsStep headers (iss.whitespace.map Prod.fst)
          (dedupStep iss (normData headers rows)).1).1).1 := rfl
  rw [h2]

lemma cleanData_fst_length (headers : List String) (rows : List (List String)) (iss : Issues) :
    (cleanData headers rows iss).1.length = (dedupStep iss (normData headers rows)).1.length := by
  rw [cleanData_fst, length_fillApply, List.length_map, stage3, lzStep_fst, length_lzApply,
    wsStep_fst, length_wsApply]


lemma normData_eq_self_of (headers : List String) {rows : List (List String)}
    (h : ∀ r ∈ rows, normRow headers.length r = r) : normData headers rows = rows := by
  unfold normData
  calc rows.map (normRow headers.length) = rows.map id := List.map_congr_left h
  _ = rows := List.map_id rows

/-- The log, expressed through the staged passes. -/
lemma cleanData_snd (headers : List String) (rows : List (List String)) (iss : Issues) :
    (cleanData headers rows iss).2 =
      (dedupStep iss (normData headers rows)).2 ++
      (wsStep headers (iss.whitespace.map Prod.fst)
        (dedupStep iss (normData headers rows)).1).2 ++
      (lzStep headers (iss.leadingZeros.map Prod.fst)
        (wsStep headers (iss.whitespace.map Prod.fst)
          (dedupStep iss (normData headers rows)).1).1).2 ++
      (fillStep headers iss.missing
        ((stage3 headers rows iss).map (fun r => r.map Cell.str))).2 ++
      [⟨.complete, .success⟩] := rfl

/-! ## Claim C9: no mutation of the input -/

/-- C9: running the cleaner leaves the component's input state — the
loaded rows, the headers and the stored issue report — unchanged; it
only replaces the cleaned-data and cleaning-log fields. -/
theorem claim9_input_not_mutated (s : AppState) :
    (cleanAction s).csvData = s.csvData ∧
    (cleanAction s).headers = s.headers ∧
    (cleanAction s).issues = s.issues := by
  unfold cleanAction
  cases hiss : s.issues with
  | none => exact ⟨rfl, rfl, hiss⟩
  | some iss =>
    by_cases hcd : s.csvData.isEmpty
    · simp [hcd, hiss]
    · simp [hcd, hiss]

/-! ## Claim C3: log shape -/

/-- C3 counterexample: cleaning a one-cell table with no issues yields
the single completion log entry, whose severity is `success` — not
`info` as the claim states. -/
theorem claim3_counterexample :
    (cleanData ["a"] [["x"]] (detect ⟨["a"], [["x"]]⟩)).2.getLast? =
      some ⟨.complete, .success⟩ ∧ LogType.success ≠ LogType.info := by
  constructor
  · decide
  · decide

/-- C3 (amended): every cleaning step emits nothing when its trigger is
absent, so a table whose report flags no issues produces a log holding
only the completion entry; and the log always ends with the completion
entry, whose severity is `success` (not `info`). -/
theorem claim3_log_completion (headers : List String) (rows : List (List String))
    (iss : Issues) :
    (cleanData headers rows iss).2.getLast? = some ⟨.complete, .success⟩ ∧
    (iss.duplicates = 0 → iss.whitespace = [] → iss.leadingZeros = [] →
      iss.missing = [] →
      (cleanData headers rows iss).2 = [⟨.complete, .success⟩]) := by
  constructor
  · rw [cleanData_snd]
    exact List.getLast?_concat _
  · intro h1 h2 h3 h4
    rw [cleanData_snd, h2, h3, h4]
    have hd : (dedupStep iss (normData headers rows)).2 = [] := by
      unfold dedupStep
      rw [if_neg (by omega : ¬0 < iss.duplicates)]
    rw [hd]
    simp [wsStep, lzStep, fillStep]

theorem claim3_log_completion_witness :
    (detect ⟨["a"], [["x"]]⟩).duplicates = 0 ∧
    (detect ⟨["a"], [["x"]]⟩).whitespace = [] ∧
    (detect ⟨["a"], [["x"]]⟩).leadingZeros = [] ∧
    (detect ⟨["a"], [["x"]]⟩).missing = [] ∧
    (cleanData ["a"] [["x"]] (detect ⟨["a"], [["x"]]⟩)).2 = [⟨.complete, .success⟩] := by
  refine ⟨by decide, by decide, by decide, by decide, ?_⟩
  exact (claim3_log_completion ["a"] [["x"]] (detect ⟨["a"], [["x"]]⟩)).2
    (by decide) (by decide) (by decide) (by decide)


/-! ## Claim C2: deduplication -/

/-- C2 counterexample: on `[["x"],["x"],[" x"]]` the report gives
`duplicates = 1` and the cleaned table has `3 - 1 = 2` rows, but the
whitespace fix afterwards turns `" x"` into `"x"`, so the cleaned table
is `[["x"],["x"]]` and re-running detection on it reports
`duplicates = 1`, not `0`. -/
theorem claim2_counterexample :
    (detect ⟨["a"], [["x"], ["x"], [" x"]]⟩).duplicates = 1 ∧
    (cleanData ["a"] [["x"], ["x"], [" x"]]
      (detect ⟨["a"], [["x"], ["x"], [" x"]]⟩)).1 =
      [[Cell.str "x"], [Cell.str "x"]] ∧
    (detectIssues ["a"] [["x"], ["x"]]).duplicates = 1 := by
  refine ⟨by decide, by decide, by decide⟩

/-- C2 (amended): with `duplicates = k > 0` the cleaned table always
has exactly `original_row_count - k` rows; and when the report flags no
whitespace, leading-zero or missing issues (so no later step can merge
rows again), the cleaned table is the first-occurrence deduplication of
the normalised rows and re-running detection on it reports
`duplicates = 0`. -/
theorem claim2_dedup_count (t : Table) (k : Nat)
    (hk : (detect t).duplicates = k) (hk0 : 0 < k) :
    (cleanData t.headers t.rows (detect t)).1.length = t.rows.length - k ∧
    ((detect t).whitespace = [] → (detect t).leadingZeros = [] →
      (detect t).missing = [] →
      (cleanData t.headers t.rows (detect t)).1 =
        (dedupFirst (normData t.headers t.rows)).map (fun r => r.map Cell.str) ∧
      (detectIssues t.headers (dedupFirst (normData t.headers t.rows))).duplicates = 0) := by
  set od := normData t.headers t.rows with hod
  have hdup : (detect t).duplicates = od.length - (dedupFirst od).length := rfl
  have hstep : (dedupStep (detect t) od).1 = dedupFirst od := by
    unfold dedupStep
    rw [if_pos (show 0 < (detect t).duplicates from hk ▸ hk0)]
  constructor
  · rw [cleanData_fst_length, hstep]
    have hlen : od.length = t.rows.length := length_normData _ _
    have hle := length_dedupFirst_le od
    have hk2 : od.length - (dedupFirst od).length = k := hdup ▸ hk
    omega
  · intro hws hlz hm
    have hcols1 : (detect t).whitespace.map Prod.fst = [] := by rw [hws]; rfl
    have hcols2 : (detect t).leadingZeros.map Prod.fst = [] := by rw [hlz]; rfl
    have hstage : stage3 t.headers t.rows (detect t) = dedupFirst od := by
      unfold stage3
      rw [hcols1, hcols2]
      simp only [lzStep, wsStep, List.foldl_nil]
      exact hstep
    refine ⟨?_, ?_⟩
    · rw [cleanData_fst, hm, hstage]
      rfl
    · have hnorm : normData t.headers (dedupFirst od) = dedupFirst od := by
        apply normData_eq_self_of
        intro r hr
        have hrod : r ∈ od := mem_dedupFirst_iff.mp hr
        rw [hod] at hrod
        rcases List.mem_map.mp hrod with ⟨r0, -, rfl⟩
        exact normRow_idem _ _
      have hre : (detectIssues t.headers (dedupFirst od)).duplicates =
          (normData t.headers (dedupFirst od)).length -
          (dedupFirst (normData t.headers (dedupFirst od))).length := rfl
      rw [hre, hnorm, dedupFirst_idem]
      omega

theorem claim2_dedup_count_witness :
    (detect ⟨["a"], [["x"], ["x"], ["y"]]⟩).duplicates = 1 ∧ 0 < 1 ∧
    (cleanData ["a"] [["x"], ["x"], ["y"]]
      (detect ⟨["a"], [["x"], ["x"], ["y"]]⟩)).1.length = 3 - 1 ∧
    (detectIssues ["a"]
      (dedupFirst (normData ["a"] [["x"], ["x"], ["y"]]))).duplicates = 0 := by
  refine ⟨by decide, by decide, ?_, ?_⟩
  · exact (claim2_dedup_count ⟨["a"], [["x"], ["x"], ["y"]]⟩ 1 (by decide) (by decide)).1
  · exact ((claim2_dedup_count ⟨["a"], [["x"], ["x"], ["y"]]⟩ 1 (by decide) (by decide)).2
      (by decide) (by decide) (by decide)).2


/-! ## Column tracking through the passes -/

lemma getD_modifyAt_ne (f : α → α) {c j : Nat} (h : j ≠ c) (l : List α) (d : α) :
    (modifyAt f c l).getD j d = l.getD j d := by
  induction l generalizing c j with
  | nil => cases c <;> rfl
  | cons a l ih =>
    cases c with
    | zero =>
      cases j with
      | zero => exact absurd rfl h
      | succ m => rfl
    | succ m =>
      cases j with
      | zero => rfl
      | succ i => exact ih (fun hh => h (by rw [hh]))

lemma getD_modifyAt_self (f : α → α) {c : Nat} {l : List α} (h : c < l.length) (d : α) :
    (modifyAt f c l).getD c d = f (l.getD c d) := by
  induction l generalizing c with
  | nil => simp at h
  | cons a l ih =>
    cases c with
    | zero => rfl
    | succ m => exact ih (Nat.lt_of_succ_lt_succ h)

lemma col_mapCol_ne (f : α → α) {c j : Nat} (h : j ≠ c) (rows : List (List α)) (d : α) :
    col (mapCol f c rows) j d = col rows j d := by
  unfold col mapCol
  rw [List.map_map]
  exact List.map_congr_left (fun r _ => getD_modifyAt_ne f h r d)


lemma col_mapCol_self (f : α → α) {c w : Nat} {rows : List (List α)}
    (hw : allLen w rows) (hc : c < w) (d : α) :
    col (mapCol f c rows) c d = (col rows c d).map f := by
  unfold col mapCol
  rw [List.map_map, List.map_map]
  exact List.map_congr_left (fun r hr => getD_modifyAt_self f (by rw [hw r hr]; exact hc) d)

lemma allLen_mapCol (f : α → α) (c w : Nat) {rows : List (List α)} (hw : allLen w rows) :
    allLen w (mapCol f c rows) := by
  intro r hr
  rcases List.mem_map.mp hr with ⟨r0, hr0, rfl⟩
  rw [length_modifyAt]
  exact hw r0 hr0

lemma allLen_normData (headers : List String) (rows : List (List String)) :
    allLen headers.length (normData headers rows) := by
  intro r hr
  rcases List.mem_map.mp hr with ⟨r0, -, rfl⟩
  exact length_normRow _ _

lemma mem_dedupStep (iss : Issues) {od : List (List String)} {r : List String}
    (h : r ∈ (dedupStep iss od).1) : r ∈ od := by
  unfold dedupStep at h
  split_ifs at h with hd
  · exact mem_dedupFirst_iff.mp h
  · exact h

lemma allLen_dedupStep (iss : Issues) {w : Nat} {od : List (List String)}
    (hw : allLen w od) : allLen w (dedupStep iss od).1 :=
  fun r hr => hw r (mem_dedupStep iss hr)

lemma mem_col {rows : List (List α)} {c : Nat} {d v : α} :
    v ∈ col rows c d ↔ ∃ r ∈ rows, r.getD c d = v := by
  simp [col, List.mem_map]


lemma allLen_wsApply (cols : List Nat) {w : Nat} {rows : List (List String)}
    (hw : allLen w rows) : allLen w (wsApply cols rows) := by
  induction cols generalizing rows with
  | nil => exact hw
  | cons c cols ih =>
    rw [wsApply, List.foldl_cons]
    exact ih (allLen_mapCol _ _ _ hw)

lemma allLen_lzApply (cols : List Nat) {w : Nat} {rows : List (List String)}
    (hw : allLen w rows) : allLen w (lzApply cols rows) := by
  induction cols generalizing rows with
  | nil => exact hw
  | cons c cols ih =>
    rw [lzApply, List.foldl_cons]
    exact ih (allLen_mapCol _ _ _ hw)

lemma col_wsApply_not_mem {cols : List Nat} {c : Nat} (h : c ∉ cols)
    (rows : List (List String)) : col (wsApply cols rows) c "" = col rows c "" := by
  induction cols generalizing rows with
  | nil => rfl
  | cons c0 cols ih =>
    rw [wsApply, List.foldl_cons]
    have hne : c ∉ cols := fun hm => h (List.mem_cons_of_mem _ hm)
    have hc0 : c ≠ c0 := fun he => h (he ▸ List.mem_cons_self _ _)
    rw [show (cols.foldl (fun rs c => mapCol wsClean c rs) (mapCol wsClean c0 rows)) =
        wsApply cols (mapCol wsClean c0 rows) from rfl, ih hne,
      col_mapCol_ne _ hc0]

lemma col_wsApply_mem {cols : List Nat} {c w : Nat} (hnd : cols.Nodup) (hc : c ∈ cols)
    (hcw : c < w) {rows : List (List String)} (hw : allLen w rows) :
    col (wsApply cols rows) c "" = (col rows c "").map wsClean := by
  induction cols generalizing rows with
  | nil => cases hc
  | cons c0 cols ih =>
    rw [wsApply, List.foldl_cons]
    rw [show (cols.foldl (fun rs c => mapCol wsClean c rs) (mapCol wsClean c0 rows)) =
        wsApply cols (mapCol wsClean c0 rows) from rfl]
    rcases List.mem_cons.mp hc with rfl | hmem
    · have hnot : c ∉ cols := (List.nodup_cons.mp hnd).1
      rw [col_wsApply_not_mem hnot, col_mapCol_self wsClean hw hcw]
    · have hc0 : c ≠ c0 := by
        rintro rfl
        exact (List.nodup_cons.mp hnd).1 hmem
      rw [ih (List.nodup_cons.mp hnd).2 hmem (allLen_mapCol _ _ _ hw),
        col_mapCol_ne _ hc0]

lemma col_lzApply_not_mem {cols : List Nat} {c : Nat} (h : c ∉ cols)
    (rows : List (List String)) : col (lzApply cols rows) c "" = col rows c "" := by
  induction cols generalizing rows with
  | nil => rfl
  | cons c0 cols ih =>
    rw [lzApply, List.foldl_cons]
    have hne : c ∉ cols := fun hm => h (List.mem_cons_of_mem _ hm)
    have hc0 : c ≠ c0 := fun he => h (he ▸ List.mem_cons_self _ _)
    rw [show (cols.foldl (fun rs c => mapCol (padStart (maxL (col rs c "")) '0') c rs)
        (mapCol (padStart (maxL (col rows c0 "")) '0') c0 rows)) =
        lzApply cols (mapCol (padStart (maxL (col rows c0 "")) '0') c0 rows) from rfl,
      ih hne, col_mapCol_ne _ hc0]

lemma col_lzApply_mem {cols : List Nat} {c w : Nat} (hnd : cols.Nodup) (hc : c ∈ cols)
    (hcw : c < w) {rows : List (List String)} (hw : allLen w rows) :
    col (lzApply cols rows) c "" =
      (col rows c "").map (padStart (maxL (col rows c "")) '0') := by
  induction cols generalizing rows with
  | nil => cases hc
  | cons c0 cols ih =>
    rw [lzApply, List.foldl_cons]
    rw [show (cols.foldl (fun rs c => mapCol (padStart (maxL (col rs c "")) '0') c rs)
        (mapCol (padStart (maxL (col rows c0 "")) '0') c0 rows)) =
        lzApply cols (mapCol (padStart (maxL (col rows c0 "")) '0') c0 rows) from rfl]
    rcases List.mem_cons.mp hc with rfl | hmem
    · have hnot : c ∉ cols := (List.nodup_cons.mp hnd).1
      rw [col_lzApply_not_mem hnot, col_mapCol_self _ hw hcw]
    · have hc0 : c ≠ c0 := by
        rintro rfl
        exact (List.nodup_cons.mp hnd).1 hmem
      rw [ih (List.nodup_cons.mp hnd).2 hmem (allLen_mapCol _ _ _ hw),
        col_mapCol_ne _ hc0]

lemma fillOneData_eq (rows : List (List Cell)) (c : Nat) :
    fillOneData rows c =
      (if (((col rows c (Cell.str "")).map cellStr).filter
          (fun v => jsTrim v ≠ "")).isEmpty then rows
       else mapCol (fillCell (fillValueOf (((col rows c (Cell.str "")).map cellStr).filter
          (fun v => jsTrim v ≠ "")))) c rows) := rfl

lemma col_fillOneData_ne {c j : Nat} (h : j ≠ c) (rows : List (List Cell)) :
    col (fillOneData rows c) j (Cell.str "") = col rows j (Cell.str "") := by
  rw [fillOneData_eq]
  split
  · rfl
  · exact col_mapCol_ne _ h rows _

lemma col_fillOneData_self {c w : Nat} {rows : List (List Cell)}
    (hw : allLen w rows) (hcw : c < w) :
    col (fillOneData rows c) c (Cell.str "") = fillColVals (col rows c (Cell.str "")) := by
  rw [fillOneData_eq, fillColVals]
  split
  · rfl
  · exact col_mapCol_self _ hw hcw _

lemma allLen_fillOneData (c w : Nat) {rows : List (List Cell)} (hw : allLen w rows) :
    allLen w (fillOneData rows c) := by
  rw [fillOneData_eq]
  split
  · exact hw
  · exact allLen_mapCol _ _ _ hw

lemma allLen_fillApply (miss : List (Nat × Nat)) {w : Nat} {rows : List (List Cell)}
    (hw : allLen w rows) : allLen w (fillApply miss rows) := by
  induction miss generalizing rows with
  | nil => exact hw
  | cons cn miss ih =>
    rw [fillApply, List.foldl_cons]
    exact ih (allLen_fillOneData _ _ hw)

lemma col_fillApply_not_mem {miss : List (Nat × Nat)} {c : Nat}
    (h : c ∉ miss.map Prod.fst) (rows : List (List Cell)) :
    col (fillApply miss rows) c (Cell.str "") = col rows c (Cell.str "") := by
  induction miss generalizing rows with
  | nil => rfl
  | cons cn miss ih =>
    rw [fillApply, List.foldl_cons]
    have hne : c ∉ miss.map Prod.fst := by
      intro hm
      exact h (by simpa using Or.inr (by simpa using hm))
    have hc0 : c ≠ cn.1 := by
      intro he
      exact h (by simp [he])
    rw [show (miss.foldl (fun d cn => fillOneData d cn.1) (fillOneData rows cn.1)) =
        fillApply miss (fillOneData rows cn.1) from rfl, ih hne,
      col_fillOneData_ne hc0]

lemma col_fillApply_mem {miss : List (Nat × Nat)} {c n w : Nat}
    (hnd : (miss.map Prod.fst).Nodup) (hc : (c, n) ∈ miss) (hcw : c < w)
    {rows : List (List Cell)} (hw : allLen w rows) :
    col (fillApply miss rows) c (Cell.str "") =
      fillColVals (col rows c (Cell.str "")) := by
  induction miss generalizing rows with
  | nil => cases hc
  | cons cn miss ih =>
    rw [fillApply, List.foldl_cons]
    rw [show (miss.foldl (fun d cn => fillOneData d cn.1) (fillOneData rows cn.1)) =
        fillApply miss (fillOneData rows cn.1) from rfl]
    have hnd2 : (cn.1 :: miss.map Prod.fst).Nodup := by simpa using hnd
    have hhead : cn.1 ∉ miss.map Prod.fst := (List.nodup_cons.mp hnd2).1
    have htail : (miss.map Prod.fst).Nodup := (List.nodup_cons.mp hnd2).2
    rcases List.mem_cons.mp hc with rfl | hmem
    · rw [col_fillApply_not_mem hhead, col_fillOneData_self hw hcw]
    · have hc0 : c ≠ cn.1 := by
        rintro rfl
        exact hhead (List.mem_map.mpr ⟨(cn.1, n), hmem, rfl⟩)
      rw [ih htail hmem (allLen_fillOneData _ _ hw), col_fillOneData_ne hc0]

lemma getD_map_str (r : List String) (c : Nat) :
    (r.map Cell.str).getD c (Cell.str "") = Cell.str (r.getD c "") := by
  rcases Nat.lt_or_ge c r.length with h | h
  · rw [List.getD_eq_getElem?_getD, List.getElem?_map, List.getD_eq_getElem?_getD,
      List.getElem?_eq_getElem h]
    rfl
  · rw [List.getD_eq_getElem?_getD, List.getD_eq_getElem?_getD,
      List.getElem?_eq_none (by simpa using h),
      List.getElem?_eq_none (by simpa using h)]
    rfl

lemma col_map_str (rows : List (List String)) (c : Nat) :
    col (rows.map (fun r => r.map Cell.str)) c (Cell.str "") =
      (col rows c "").map Cell.str := by
  unfold col
  rw [List.map_map, List.map_map]
  exact List.map_congr_left (fun r _ => getD_map_str r c)

lemma allLen_map_str {w : Nat} {rows : List (List String)} (hw : allLen w rows) :
    allLen w (rows.map (fun r => r.map Cell.str)) := by
  intro r hr
  rcases List.mem_map.mp hr with ⟨r0, hr0, rfl⟩
  simpa using hw r0 hr0


/-! ## Report key lemmas -/

lemma nodup_keys_filterMap {β : Type} (g : Nat → Option β) (key : β → Nat)
    (hg : ∀ i y, g i = some y → key y = i) :
    ∀ l : List Nat, l.Nodup → ((l.filterMap g).map key).Nodup := by
  intro l hl
  induction l with
  | nil => simp
  | cons a l ih =>
    rcases List.nodup_cons.mp hl with ⟨ha, hl2⟩
    cases hga : g a with
    | none => simpa [List.filterMap_cons, hga] using ih hl2
    | some y =>
      simp only [List.filterMap_cons, hga, List.map_cons]
      refine List.nodup_cons.mpr ⟨?_, ih hl2⟩
      intro hmem
      rcases List.mem_map.mp hmem with ⟨z, hz, hkey⟩
      rcases List.mem_filterMap.mp hz with ⟨i, hi, hgi⟩
      have h1 : key y = a := hg a y hga
      have h2 : key z = i := hg i z hgi
      have hia : i = a := by rw [← h2, hkey, h1]
      exact ha (hia ▸ hi)

lemma missingEntry_key (od : List (List String)) (i : Nat) (y : Nat × Nat)
    (h : missingEntry od i = some y) : y.1 = i := by
  simp only [missingEntry] at h
  split_ifs at h
  cases h
  rfl

lemma wsEntry_key (od : List (List String)) (i : Nat) (y : Nat × String)
    (h : wsEntry od i = some y) : y.1 = i := by
  unfold wsEntry at h
  split_ifs at h
  cases h
  rfl

lemma lzEntry_key (od : List (List String)) (i : Nat) (y : Nat × String)
    (h : lzEntry od i = some y) : y.1 = i := by
  unfold lzEntry at h
  split_ifs at h
  cases h
  rfl

lemma detect_missing_keys_nodup (t : Table) :
    ((detect t).missing.map Prod.fst).Nodup :=
  nodup_keys_filterMap _ Prod.fst (missingEntry_key _) _ (List.nodup_range _)

lemma detect_ws_keys_nodup (t : Table) :
    ((detect t).whitespace.map Prod.fst).Nodup :=
  nodup_keys_filterMap _ Prod.fst (wsEntry_key _) _ (List.nodup_range _)

lemma detect_lz_keys_nodup (t : Table) :
    ((detect t).leadingZeros.map Prod.fst).Nodup :=
  nodup_keys_filterMap _ Prod.fst (lzEntry_key _) _ (List.nodup_range _)

lemma mem_detect_missing_lt {t : Table} {c n : Nat}
    (h : (c, n) ∈ (detect t).missing) : c < t.headers.length := by
  have hdef : (detect t).missing = (List.range t.headers.length).filterMap
      (missingEntry (normData t.headers t.rows)) := rfl
  rw [hdef, mem_filterMap_range] at h
  rcases h with ⟨j, hj, hsome⟩
  have := missingEntry_key _ _ _ hsome
  simp only at this
  exact this ▸ hj

lemma mem_detect_lz_lt {t : Table} {c : Nat} {m : String}
    (h : (c, m) ∈ (detect t).leadingZeros) : c < t.headers.length := by
  have hdef : (detect t).leadingZeros = (List.range t.headers.length).filterMap
      (lzEntry (normData t.headers t.rows)) := rfl
  rw [hdef, mem_filterMap_range] at h
  rcases h with ⟨j, hj, hsome⟩
  have := lzEntry_key _ _ _ hsome
  simp only at this
  exact this ▸ hj

lemma mem_detect_lz_any {t : Table} {c : Nat} {m : String}
    (h : (c, m) ∈ (detect t).leadingZeros) :
    ∃ r ∈ normData t.headers t.rows, hasLeadingZero (r.getD c "") = true := by
  have hdef : (detect t).leadingZeros = (List.range t.headers.length).filterMap
      (lzEntry (normData t.headers t.rows)) := rfl
  rw [hdef, mem_filterMap_range] at h
  rcases h with ⟨j, hj, hsome⟩
  have hkey := lzEntry_key _ _ _ hsome
  simp only at hkey
  subst hkey
  unfold lzEntry at hsome
  split_ifs at hsome with hany
  exact List.any_eq_true.mp hany

lemma ws_unflagged {t : Table} {c : Nat} (hcw : c < t.headers.length)
    (h : c ∉ (detect t).whitespace.map Prod.fst) :
    ∀ r ∈ normData t.headers t.rows, hasWsIssue (r.getD c "") = false := by
  intro r hr
  by_contra hcon
  have hany : (normData t.headers t.rows).any
      (fun r => hasWsIssue (r.getD c "")) = true :=
    List.any_eq_true.mpr ⟨r, hr, by simpa using hcon⟩
  have hsome : wsEntry (normData t.headers t.rows) c =
      some (c, "leading_or_trailing_space") := by
    unfold wsEntry
    rw [if_pos hany]
  have hmem : (c, "leading_or_trailing_space") ∈ (detect t).whitespace := by
    have hdef : (detect t).whitespace = (List.range t.headers.length).filterMap
        (wsEntry (normData t.headers t.rows)) := rfl
    rw [hdef, mem_filterMap_range]
    exact ⟨c, hcw, hsome⟩
  exact h (List.mem_map.mpr ⟨_, hmem, rfl⟩)

lemma lz_unflagged {t : Table} {c : Nat} (hcw : c < t.headers.length)
    (h : c ∉ (detect t).leadingZeros.map Prod.fst) :
    ∀ r ∈ normData t.headers t.rows, hasLeadingZero (r.getD c "") = false := by
  intro r hr
  by_contra hcon
  have hany : (normData t.headers t.rows).any
      (fun r => hasLeadingZero (r.getD c "")) = true :=
    List.any_eq_true.mpr ⟨r, hr, by simpa using hcon⟩
  have hsome : lzEntry (normData t.headers t.rows) c =
      some (c, "leading_zeros_lost") := by
    unfold lzEntry
    rw [if_pos hany]
  have hmem : (c, "leading_zeros_lost") ∈ (detect t).leadingZeros := by
    have hdef : (detect t).leadingZeros = (List.range t.headers.length).filterMap
        (lzEntry (normData t.headers t.rows)) := rfl
    rw [hdef, mem_filterMap_range]
    exact ⟨c, hcw, hsome⟩
  exact h (List.mem_map.mpr ⟨_, hmem, rfl⟩)


/-! ## Trimming lemmas -/

lemma dropWhile_head_not (p : Char → Bool) (l : List Char) :
    ∀ a, (l.dropWhile p).head? = some a → p a = false := by
  induction l with
  | nil => intro a h; cases h
  | cons b t ih =>
    intro a h
    by_cases hb : p b
    · rw [List.dropWhile_cons, if_pos hb] at h
      exact ih a h
    · rw [List.dropWhile_cons, if_neg hb] at h
      cases h
      exact Bool.eq_false_iff.mpr hb

lemma dropWhile_eq_self_of_head (p : Char → Bool) (l : List Char)
    (h : ∀ a, l.head? = some a → p a = false) : l.dropWhile p = l := by
  cases l with
  | nil => rfl
  | cons b t =>
    rw [List.dropWhile_cons, if_neg (by rw [h b rfl]; simp)]

lemma jsTrimList_eq_self {l : List Char}
    (hh : ∀ a, l.head? = some a → isJsSpace a = false)
    (hl : ∀ a, l.getLast? = some a → isJsSpace a = false) :
    jsTrimList l = l := by
  unfold jsTrimList
  rw [dropWhile_eq_self_of_head _ _ hh,
    dropWhile_eq_self_of_head _ _ (fun a ha => hl a ((List.head?_reverse l) ▸ ha)),
    List.reverse_reverse]

lemma jsTrimList_pref (l : List Char) :
    jsTrimList l <+: l.dropWhile isJsSpace := by
  unfold jsTrimList
  have h2 := List.reverse_prefix.mpr
    (List.dropWhile_suffix (l := (l.dropWhile isJsSpace).reverse) isJsSpace)
  rwa [List.reverse_reverse] at h2

lemma prefix_head_eq {l1 l2 : List Char} {a : Char} (h : l1 <+: l2)
    (ha : l1.head? = some a) : l2.head? = some a := by
  rcases h with ⟨t, rfl⟩
  cases l1 with
  | nil => cases ha
  | cons x l1 =>
    cases ha
    rfl

lemma jsTrimList_head_not (l : List Char) :
    ∀ a, (jsTrimList l).head? = some a → isJsSpace a = false := by
  intro a ha
  exact dropWhile_head_not isJsSpace l a (prefix_head_eq (jsTrimList_pref l) ha)

lemma jsTrimList_getLast_not (l : List Char) :
    ∀ a, (jsTrimList l).getLast? = some a → isJsSpace a = false := by
  intro a ha
  unfold jsTrimList at ha
  rw [List.getLast?_reverse] at ha
  exact dropWhile_head_not isJsSpace _ a ha

lemma jsTrimList_idem (l : List Char) : jsTrimList (jsTrimList l) = jsTrimList l :=
  jsTrimList_eq_self (jsTrimList_head_not l) (jsTrimList_getLast_not l)

lemma data_mk (l : List Char) : (String.mk l).data = l := rfl

lemma jsTrim_idem (s : String) : jsTrim (jsTrim s) = jsTrim s := by
  unfold jsTrim
  rw [data_mk, jsTrimList_idem]

lemma jsTrim_eq_self_of_no_space {s : String}
    (h : ∀ c ∈ s.data, isJsSpace c = false) : jsTrim s = s := by
  unfold jsTrim
  rw [jsTrimList_eq_self (fun a ha => h a (List.mem_of_mem_head? ha))
    (fun a ha => h a (List.mem_of_mem_getLast? ha))]


lemma string_ext {s t : String} (h : s.data = t.data) : s = t := by
  cases s
  cases t
  exact congrArg String.mk h

lemma dropWhile_eq_self_of_trimEq {l : List Char} (h : jsTrimList l = l) :
    l.dropWhile isJsSpace = l := by
  have h1 : l.length ≤ (l.dropWhile isJsSpace).length := by
    have h2 := (jsTrimList_pref l).length_le
    rw [h] at h2
    exact h2
  exact (List.dropWhile_suffix _).eq_of_length
    (le_antisymm (List.dropWhile_suffix _).length_le h1)

lemma head_not_space_of_trimEq {l : List Char} (h : jsTrimList l = l) :
    ∀ a, l.head? = some a → isJsSpace a = false := by
  intro a ha
  have hdw := dropWhile_eq_self_of_trimEq h
  by_contra hcon
  have hpa : isJsSpace a = true := by simpa using hcon
  cases l with
  | nil => cases ha
  | cons b t =>
    cases ha
    rw [List.dropWhile_cons, if_pos hpa] at hdw
    have hlen := congrArg List.length hdw
    have hle := (List.dropWhile_suffix (l := t) isJsSpace).length_le
    simp at hlen
    omega

lemma getLast_not_space_of_trimEq {l : List Char} (h : jsTrimList l = l) :
    ∀ a, l.getLast? = some a → isJsSpace a = false := by
  intro a ha
  by_contra hcon
  have hpa : isJsSpace a = true := by simpa using hcon
  have hdw := dropWhile_eq_self_of_trimEq h
  have h2 : (List.dropWhile isJsSpace l.reverse).reverse = l := by
    have h3 := h
    unfold jsTrimList at h3
    rw [hdw] at h3
    exact h3
  have h3 : List.dropWhile isJsSpace l.reverse = l.reverse := by
    apply (List.dropWhile_suffix _).eq_of_length
    have h4 := congrArg List.length h2
    simp at h4
    simp [h4]
  have h4 : l.reverse.head? = some a := by
    rw [List.head?_reverse]
    exact ha
  cases hrev : l.reverse with
  | nil =>
    rw [hrev] at h4
    cases h4
  | cons b t =>
    rw [hrev] at h3 h4
    cases h4
    rw [List.dropWhile_cons, if_pos hpa] at h3
    have hlen := congrArg List.length h3
    have hle := (List.dropWhile_suffix (l := t) isJsSpace).length_le
    simp at hlen
    omega

lemma jsTrim_data {s : String} (h : jsTrim s = s) : jsTrimList s.data = s.data :=
  congrArg String.data h

lemma isJsSpace_digit {c : Char} (h : c.isDigit = true) : isJsSpace c = false := by
  have hb : 48 ≤ c.toNat ∧ c.toNat ≤ 57 := by
    simp [Char.isDigit] at h
    exact h
  simp only [isJsSpace, jsSpaceCodes, List.mem_cons, List.not_mem_nil, or_false,
    decide_eq_false_iff_not]
  omega

lemma digit_ne_nbsp {c : Char} (h : c.isDigit = true) : c ≠ nbsp := by
  intro he
  have := isJsSpace_digit h
  rw [he] at this
  simp [isJsSpace, jsSpaceCodes, nbsp] at this

lemma padStart_length (m : Nat) (c : Char) (s : String) :
    (padStart m c s).length = max m s.length := by
  show (List.replicate (m - s.length) c ++ s.data).length = max m s.length
  rw [List.length_append, List.length_replicate]
  have : s.data.length = s.length := rfl
  omega

lemma jsTrim_padStart {s : String} (h : jsTrim s = s) (m : Nat) :
    jsTrim (padStart m '0' s) = padStart m '0' s := by
  have hdata := jsTrim_data h
  apply string_ext
  show jsTrimList (List.replicate (m - s.length) '0' ++ s.data) =
    List.replicate (m - s.length) '0' ++ s.data
  apply jsTrimList_eq_self
  · intro a ha
    cases hk : m - s.length with
    | zero =>
      rw [hk] at ha
      simp only [List.replicate, List.nil_append] at ha
      exact head_not_space_of_trimEq hdata a ha
    | succ k =>
      rw [hk, List.replicate_succ] at ha
      cases ha
      decide
  · intro a ha
    cases hd : s.data with
    | nil =>
      rw [hd, List.append_nil] at ha
      have hmem := List.mem_of_mem_getLast? ha
      have := (List.eq_of_mem_replicate hmem)
      subst this
      decide
    | cons b t =>
      rw [List.getLast?_append_of_ne_nil _ (by rw [hd]; simp)] at ha
      exact getLast_not_space_of_trimEq hdata a ha

lemma acc_le_foldl_max : ∀ (l : List Nat) (acc : Nat), acc ≤ l.foldl max acc := by
  intro l
  induction l with
  | nil => intro acc; exact le_refl _
  | cons a t ih =>
    intro acc
    exact le_trans (Nat.le_max_left acc a) (ih (max acc a))

lemma le_foldl_max : ∀ (l : List Nat) (acc x : Nat), x ∈ l → x ≤ l.foldl max acc := by
  intro l
  induction l with
  | nil => intro acc x hx; cases hx
  | cons a t ih =>
    intro acc x hx
    rcases List.mem_cons.mp hx with rfl | hx2
    · exact le_trans (Nat.le_max_right acc x) (acc_le_foldl_max t (max acc x))
    · exact ih (max acc a) x hx2

lemma le_maxL_of_mem {v : String} {vs : List String} (h : v ∈ vs) :
    v.length ≤ maxL vs :=
  le_foldl_max _ 0 _ (List.mem_map.mpr ⟨v, h, rfl⟩)

lemma stage3_eq (headers : List String) (rows : List (List String)) (iss : Issues) :
    stage3 headers rows iss =
      lzApply (iss.leadingZeros.map Prod.fst) (stage2 headers rows iss) := by
  unfold stage3 stage2
  rw [lzStep_fst]

lemma stage2_eq (headers : List String) (rows : List (List String)) (iss : Issues) :
    stage2 headers rows iss =
      wsApply (iss.whitespace.map Prod.fst) (dedupStep iss (normData headers rows)).1 := by
  unfold stage2
  rw [wsStep_fst]

lemma allLen_stage2 (headers : List String) (rows : List (List String)) (iss : Issues) :
    allLen headers.length (stage2 headers rows iss) := by
  rw [stage2_eq]
  exact allLen_wsApply _ (allLen_dedupStep _ (allLen_normData _ _))

lemma allLen_stage3 (headers : List String) (rows : List (List String)) (iss : Issues) :
    allLen headers.length (stage3 headers rows iss) := by
  rw [stage3_eq]
  exact allLen_lzApply _ (allLen_stage2 _ _ _)

lemma map_cellStr_str (vs : List String) : (vs.map Cell.str).map cellStr = vs := by
  rw [List.map_map]
  calc vs.map (cellStr ∘ Cell.str) = vs.map id := List.map_congr_left (fun v _ => rfl)
  _ = vs := List.map_id vs

lemma fillColVals_str_of_ne {vs : List String}
    (hne : vs.filter (fun v => jsTrim v ≠ "") ≠ []) :
    fillColVals (vs.map Cell.str) =
      vs.map (fun v => if jsTrim v = "" then
        fillValueOf (vs.filter (fun v => jsTrim v ≠ "")) else Cell.str (jsTrim v)) := by
  unfold fillColVals
  rw [map_cellStr_str]
  rw [if_neg (by simpa [List.isEmpty_iff] using hne)]
  rw [List.map_map]
  exact List.map_congr_left (fun v _ => rfl)

lemma fillColVals_str_of_empty {vs : List String}
    (he : vs.filter (fun v => jsTrim v ≠ "") = []) :
    fillColVals (vs.map Cell.str) = vs.map Cell.str := by
  unfold fillColVals
  rw [map_cellStr_str]
  rw [if_pos (by rw [List.isEmpty_iff]; exact he)]


/-- C10: for a column flagged missing with at least one non-empty value
at the imputation step, that step rewrites the whole column: every
non-missing cell becomes its trimmed text form and every still-empty
(empty or whitespace-only) cell becomes the fill value (numeric median
when all non-empty values parse).  The report is an input of the
Cleaner, so a column can carry a `missing` flag without a `whitespace`
flag while holding untrimmed text; the closed conjuncts exhibit such a
run in which the non-missing cell `" x"` is altered to `"x"` although
the whitespace report is empty. -/
theorem claim10_imputation_rewrites (headers : List String) (rows : List (List String))
    (iss : Issues) (c n : Nat) (hm : (c, n) ∈ iss.missing)
    (hnd : (iss.missing.map Prod.fst).Nodup) (hcw : c < headers.length)
    (hne : (col (stage3 headers rows iss) c "").filter (fun v => jsTrim v ≠ "") ≠ []) :
    col (cleanData headers rows iss).1 c (Cell.str "") =
      (col (stage3 headers rows iss) c "").map
        (fun v => if jsTrim v = "" then
          fillValueOf ((col (stage3 headers rows iss) c "").filter
            (fun v => jsTrim v ≠ ""))
        else Cell.str (jsTrim v)) ∧
    (cleanData ["a"] [[" x"], [""]] ⟨[(0, 1)], 0, [], [], [], 1, 2⟩).1 =
      [[Cell.str "x"], [Cell.str " x"]] ∧
    Cell.str " x" ≠ Cell.str "x" := by
  refine ⟨?_, by decide, by decide⟩
  rw [cleanData_fst,
    col_fillApply_mem hnd hm hcw (allLen_map_str (allLen_stage3 headers rows iss)),
    col_map_str]
  exact fillColVals_str_of_ne hne

theorem claim10_imputation_rewrites_witness :
    ((0, 1) ∈ ([(0, 1)] : List (Nat × Nat))) ∧ 0 < 1 ∧
    col (cleanData ["a"] [[" x"], [""]] ⟨[(0, 1)], 0, [], [], [], 1, 2⟩).1 0 (Cell.str "") =
      (col (stage3 ["a"] [[" x"], [""]] ⟨[(0, 1)], 0, [], [], [], 1, 2⟩) 0 "").map
        (fun v => if jsTrim v = "" then
          fillValueOf ((col (stage3 ["a"] [[" x"], [""]] ⟨[(0, 1)], 0, [], [], [], 1, 2⟩) 0 "").filter
            (fun v => jsTrim v ≠ ""))
        else Cell.str (jsTrim v)) :=
  ⟨by decide, by decide,
   (claim10_imputation_rewrites ["a"] [[" x"], [""]] ⟨[(0, 1)], 0, [], [], [], 1, 2⟩ 0 1
     (by decide) (by decide) (by decide) (by decide)).1⟩


/-- C4 counterexample: a column whose only cell is empty is flagged
missing and has no non-empty values; the claim (with `median [] = 0`)
would fill the cell with the number `0`, but cleaning leaves it as the
empty string. -/
theorem claim4_counterexample :
    (0, 1) ∈ (detect ⟨["a"], [[""]]⟩).missing ∧
    (cleanData ["a"] [[""]] (detect ⟨["a"], [[""]]⟩)).1 = [[Cell.str ""]] ∧
    (∀ q : ℚ, Cell.str "" ≠ Cell.num q) ∧ median [] = 0 := by
  refine ⟨by decide, by decide, fun q h => Cell.noConfusion h, rfl⟩

/-- C4 (amended): for a column flagged missing such that, entering the
imputation step (after dedup, whitespace fix and zero padding), the
column still has at least one non-empty value and every non-empty
value parses as a number, every cell still empty at that step is
filled with the numeric median of those parsed values (median: sort
ascending, average the two central values for even length, single
central value for odd length), and every other cell becomes its
trimmed text form. -/
theorem claim4_median_fill (t : Table) (c n : Nat)
    (hm : (c, n) ∈ (detect t).missing)
    (hne : (col (stage3 t.headers t.rows (detect t)) c "").filter
      (fun v => jsTrim v ≠ "") ≠ [])
    (hnum : ((((col (stage3 t.headers t.rows (detect t)) c "").filter
        (fun v => jsTrim v ≠ "")).filterMap parseNum)).length =
      ((col (stage3 t.headers t.rows (detect t)) c "").filter
        (fun v => jsTrim v ≠ "")).length) :
    col (cleanData t.headers t.rows (detect t)).1 c (Cell.str "") =
      (col (stage3 t.headers t.rows (detect t)) c "").map
        (fun v => if jsTrim v = "" then
          Cell.num (median (((col (stage3 t.headers t.rows (detect t)) c "").filter
            (fun v => jsTrim v ≠ "")).filterMap parseNum))
        else Cell.str (jsTrim v)) := by
  rw [cleanData_fst,
    col_fillApply_mem (detect_missing_keys_nodup t) hm (mem_detect_missing_lt hm)
      (allLen_map_str (allLen_stage3 _ _ _)),
    col_map_str, fillColVals_str_of_ne hne]
  have hfv : fillValueOf ((col (stage3 t.headers t.rows (detect t)) c "").filter
      (fun v => jsTrim v ≠ "")) =
      Cell.num (median (((col (stage3 t.headers t.rows (detect t)) c "").filter
        (fun v => jsTrim v ≠ "")).filterMap parseNum)) := by
    unfold fillValueOf
    rw [if_pos hnum]
  rw [hfv]

theorem claim4_median_fill_witness :
    (1, 1) ∈ (detect ⟨["id", "val"], [["1", "10"], ["2", ""], ["1", "10"], [" 3 ", "30"]]⟩).missing ∧
    col (cleanData ["id", "val"] [["1", "10"], ["2", ""], ["1", "10"], [" 3 ", "30"]]
      (detect ⟨["id", "val"], [["1", "10"], ["2", ""], ["1", "10"], [" 3 ", "30"]]⟩)).1 1 (Cell.str "") =
      (col (stage3 ["id", "val"] [["1", "10"], ["2", ""], ["1", "10"], [" 3 ", "30"]] (detect ⟨["id", "val"], [["1", "10"], ["2", ""], ["1", "10"], [" 3 ", "30"]]⟩)) 1 "").map
        (fun v => if jsTrim v = "" then
          Cell.num (median (((col (stage3 ["id", "val"] [["1", "10"], ["2", ""], ["1", "10"], [" 3 ", "30"]] (detect ⟨["id", "val"], [["1", "10"], ["2", ""], ["1", "10"], [" 3 ", "30"]]⟩)) 1 "").filter
            (fun v => jsTrim v ≠ "")).filterMap parseNum))
        else Cell.str (jsTrim v)) :=
  ⟨by decide,
   claim4_median_fill ⟨["id", "val"], [["1", "10"], ["2", ""], ["1", "10"], [" 3 ", "30"]]⟩ 1 1 (by decide) (by decide) (by decide)⟩


/-! ## Empty-column lemmas -/

lemma jsTrimList_nil_iff {l : List Char} :
    jsTrimList l = [] ↔ ∀ a ∈ l, isJsSpace a = true := by
  unfold jsTrimList
  rw [List.reverse_eq_nil_iff, List.dropWhile_eq_nil_iff]
  constructor
  · intro h a ha
    rcases List.mem_append.mp
        ((List.takeWhile_append_dropWhile isJsSpace l) ▸ ha) with h2 | h2
    · exact List.mem_takeWhile_imp h2
    · exact h a (List.mem_reverse.mpr h2)
  · intro h a ha
    exact h a ((List.dropWhile_suffix isJsSpace).subset (List.mem_reverse.mp ha))

lemma jsTrim_empty_iff {s : String} :
    jsTrim s = "" ↔ ∀ a ∈ s.data, isJsSpace a = true := by
  constructor
  · intro h
    exact jsTrimList_nil_iff.mp (congrArg String.data h)
  · intro h
    exact string_ext (jsTrimList_nil_iff.mpr h)

lemma wsClean_empty {v : String} (h : jsTrim v = "") : wsClean v = "" := by
  unfold wsClean
  rw [jsTrim_empty_iff]
  intro ch hch
  rcases List.mem_map.mp hch with ⟨c0, hc0, rfl⟩
  have hsp := jsTrim_empty_iff.mp h c0 hc0
  by_cases he : c0 = nbsp
  · rw [if_pos he]
    decide
  · rw [if_neg he]
    exact hsp

lemma eq_trim_of_not_wsIssue {v : String} (h : hasWsIssue v = false) :
    jsTrim v = v := by
  simp [hasWsIssue] at h
  exact h.1.symm

lemma hasLeadingZero_spec {s : String} (h : hasLeadingZero s = true) :
    s.data ≠ [] ∧ (∀ ch ∈ s.data, ch.isDigit = true) ∧ 1 < s.length := by
  simp [hasLeadingZero, List.all_eq_true] at h
  exact ⟨by simpa [List.isEmpty_iff] using h.1.1.1, h.1.1.2, h.2⟩

lemma getD_inj_of_nodup {l : List String} (h : l.Nodup) {i j : Nat}
    (hi : i < l.length) (hj : j < l.length) (he : l.getD i "" = l.getD j "") :
    i = j := by
  rw [List.getD_eq_getElem l "" hi, List.getD_eq_getElem l "" hj] at he
  exact (List.Nodup.getElem_inj_iff h).mp he

/-! ## Fill log characterisation -/

lemma fillOne_eq (headers : List String) (st : List (List Cell) × List LogEntry)
    (cn : Nat × Nat) :
    fillOne headers st cn =
      if (((col st.1 cn.1 (Cell.str "")).map cellStr).filter
          (fun v => jsTrim v ≠ "")).isEmpty then st
      else
        (mapCol (fillCell (fillValueOf (((col st.1 cn.1 (Cell.str "")).map cellStr).filter
            (fun v => jsTrim v ≠ "")))) cn.1 st.1,
         st.2 ++ [⟨.filledMissing cn.2 (headers.getD cn.1 ""), .success⟩]) := rfl

lemma fillStep_snd_char (headers : List String) :
    ∀ (miss : List (Nat × Nat)) (rows : List (List Cell)) (acc : List LogEntry),
      (miss.map Prod.fst).Nodup →
      (miss.foldl (fillOne headers) (rows, acc)).2 =
        acc ++ (miss.filter (fun cn =>
          !(((col rows cn.1 (Cell.str "")).map cellStr).filter
            (fun v => jsTrim v ≠ "")).isEmpty)).map
          (fun cn => ⟨.filledMissing cn.2 (headers.getD cn.1 ""), .success⟩) := by
  intro miss
  induction miss with
  | nil =>
    intro rows acc _
    simp
  | cons cn miss ih =>
    intro rows acc hnd
    have hnd2 : (cn.1 :: miss.map Prod.fst).Nodup := by simpa using hnd
    have hhead : cn.1 ∉ miss.map Prod.fst := (List.nodup_cons.mp hnd2).1
    have htail : (miss.map Prod.fst).Nodup := (List.nodup_cons.mp hnd2).2
    rw [List.foldl_cons, fillOne_eq]
    have hcolinv : ∀ cn2 ∈ miss,
        col (fillOneData rows cn.1) cn2.1 (Cell.str "") = col rows cn2.1 (Cell.str "") := by
      intro cn2 hcn2
      apply col_fillOneData_ne
      intro he
      exact hhead (he ▸ List.mem_map.mpr ⟨cn2, hcn2, rfl⟩)
    by_cases hc : (((col rows cn.1 (Cell.str "")).map cellStr).filter
        (fun v => jsTrim v ≠ "")).isEmpty
    · rw [if_pos hc]
      rw [List.filter_cons_of_neg (by rw [hc]; decide)]
      exact ih rows acc htail
    · rw [if_neg hc]
      have hfd : mapCol (fillCell (fillValueOf (((col rows cn.1 (Cell.str "")).map cellStr).filter
          (fun v => jsTrim v ≠ "")))) cn.1 rows = fillOneData rows cn.1 := by
        rw [fillOneData_eq, if_neg hc]
      rw [hfd, ih (fillOneData rows cn.1) _ htail]
      have hcf : (((col rows cn.1 (Cell.str "")).map cellStr).filter
          (fun v => jsTrim v ≠ "")).isEmpty = false := by
        simp only [Bool.not_eq_true] at hc
        exact hc
      rw [List.filter_cons_of_pos (by rw [hcf]; rfl)]
      rw [List.filter_congr (fun cn2 hcn2 => by rw [hcolinv cn2 hcn2])]
      simp

lemma fillStep_snd (headers : List String) (miss : List (Nat × Nat))
    (rows : List (List Cell)) (hnd : (miss.map Prod.fst).Nodup) :
    (fillStep headers miss rows).2 =
      (miss.filter (fun cn =>
        !(((col rows cn.1 (Cell.str "")).map cellStr).filter
          (fun v => jsTrim v ≠ "")).isEmpty)).map
        (fun cn => ⟨.filledMissing cn.2 (headers.getD cn.1 ""), .success⟩) := by
  have h := fillStep_snd_char headers miss rows [] hnd
  simpa [fillStep] using h


/-! ## Claim C1: fully empty columns -/

/-- C1 counterexample: column `"b"` is flagged missing and has no
non-empty values at all; cleaning leaves both of its cells as the empty
string — not `"Unknown"` — and emits no log entry for it (the log is
just the completion entry). -/
theorem claim1_counterexample :
    (1, 2) ∈ (detect ⟨["a", "b"], [["x", ""], ["y", ""]]⟩).missing ∧
    (cleanData ["a", "b"] [["x", ""], ["y", ""]]
      (detect ⟨["a", "b"], [["x", ""], ["y", ""]]⟩)).1 =
      [[Cell.str "x", Cell.str ""], [Cell.str "y", Cell.str ""]] ∧
    (cleanData ["a", "b"] [["x", ""], ["y", ""]]
      (detect ⟨["a", "b"], [["x", ""], ["y", ""]]⟩)).2 =
      [⟨.complete, .success⟩] ∧
    Cell.str "" ≠ Cell.str "Unknown" := by
  refine ⟨by decide, by decide, by decide, by decide⟩

/-- C1 (amended): a column flagged missing whose values are all empty
or whitespace-only is skipped entirely by the imputation step: every
cell of that column in the cleaned table is the empty string (never
`"Unknown"`), and the log carries no fill entry naming that column.
The `'Unknown'` fallback in the source (`maxBy ... || 'Unknown'`) is
unreachable, because the fill branch only runs when at least one
non-empty value exists. -/
theorem claim1_empty_column_skipped (t : Table) (c n : Nat)
    (hm : (c, n) ∈ (detect t).missing) (hhd : t.headers.Nodup)
    (hempty : ∀ r ∈ normData t.headers t.rows, jsTrim (r.getD c "") = "") :
    (∀ cell ∈ col (cleanData t.headers t.rows (detect t)).1 c (Cell.str ""),
      cell = Cell.str "") ∧
    (cleanData t.headers t.rows (detect t)).2.countP
      (isFillEntryFor (t.headers.getD c "")) = 0 := by
  have hcw := mem_detect_missing_lt hm
  have h1 : ∀ v ∈ col (dedupStep (detect t) (normData t.headers t.rows)).1 c "",
      jsTrim v = "" := by
    intro v hv
    rcases mem_col.mp hv with ⟨r, hr, rfl⟩
    exact hempty r (mem_dedupStep _ hr)
  have h2 : ∀ v ∈ col (stage2 t.headers t.rows (detect t)) c "", v = "" := by
    rw [stage2_eq]
    by_cases hmem : c ∈ (detect t).whitespace.map Prod.fst
    · rw [col_wsApply_mem (detect_ws_keys_nodup t) hmem hcw
        (allLen_dedupStep _ (allLen_normData _ _))]
      intro v hv
      rcases List.mem_map.mp hv with ⟨u, hu, rfl⟩
      exact wsClean_empty (h1 u hu)
    · rw [col_wsApply_not_mem hmem]
      intro v hv
      rcases mem_col.mp hv with ⟨r, hr, rfl⟩
      have hfix := eq_trim_of_not_wsIssue
        (ws_unflagged hcw hmem r (mem_dedupStep _ hr))
      rw [← hfix]
      exact h1 _ hv
  have h3 : c ∉ (detect t).leadingZeros.map Prod.fst := by
    intro hmem
    rcases List.mem_map.mp hmem with ⟨p, hp, hfst⟩
    have hp2 : (c, p.2) ∈ (detect t).leadingZeros := by
      rw [show (c, p.2) = p from by rw [← hfst]]
      exact hp
    rcases mem_detect_lz_any hp2 with ⟨r, hr, hlz⟩
    have he := jsTrim_empty_iff.mp (hempty r hr)
    rcases hasLeadingZero_spec hlz with ⟨hnil, hdig, -⟩
    rcases List.exists_mem_of_ne_nil _ hnil with ⟨ch, hch⟩
    have hsp := he ch hch
    rw [isJsSpace_digit (hdig ch hch)] at hsp
    cases hsp
  have h4 : col (stage3 t.headers t.rows (detect t)) c "" =
      col (stage2 t.headers t.rows (detect t)) c "" := by
    rw [stage3_eq]
    exact col_lzApply_not_mem h3 _
  have h5 : (col (stage3 t.headers t.rows (detect t)) c "").filter
      (fun v => jsTrim v ≠ "") = [] := by
    rw [h4]
    refine List.filter_eq_nil_iff.mpr (fun v hv => ?_)
    rw [h2 v hv]
    decide
  have h6 : col (cleanData t.headers t.rows (detect t)).1 c (Cell.str "") =
      (col (stage3 t.headers t.rows (detect t)) c "").map Cell.str := by
    rw [cleanData_fst,
      col_fillApply_mem (detect_missing_keys_nodup t) hm hcw
        (allLen_map_str (allLen_stage3 _ _ _)),
      col_map_str, fillColVals_str_of_empty h5]
  constructor
  · intro cell hcell
    rw [h6] at hcell
    rcases List.mem_map.mp hcell with ⟨v, hv, rfl⟩
    rw [h4] at hv
    rw [h2 v hv]
  · rw [cleanData_snd, List.countP_append, List.countP_append,
      List.countP_append, List.countP_append]
    have ha : (dedupStep (detect t) (normData t.headers t.rows)).2.countP
        (isFillEntryFor (t.headers.getD c "")) = 0 := by
      unfold dedupStep
      split_ifs <;> rfl
    have hb : (wsStep t.headers ((detect t).whitespace.map Prod.fst)
        (dedupStep (detect t) (normData t.headers t.rows)).1).2.countP
        (isFillEntryFor (t.headers.getD c "")) = 0 := by
      rw [wsStep_snd, List.countP_map]
      exact List.countP_eq_zero.mpr (fun a _ => by simp [isFillEntryFor, Function.comp])
    have hcz : (lzStep t.headers ((detect t).leadingZeros.map Prod.fst)
        (wsStep t.headers ((detect t).whitespace.map Prod.fst)
          (dedupStep (detect t) (normData t.headers t.rows)).1).1).2.countP
        (isFillEntryFor (t.headers.getD c "")) = 0 := by
      rw [lzStep_snd, List.countP_map]
      exact List.countP_eq_zero.mpr (fun a _ => by simp [isFillEntryFor, Function.comp])
    have hd : (fillStep t.headers (detect t).missing
        ((stage3 t.headers t.rows (detect t)).map (fun r => r.map Cell.str))).2.countP
        (isFillEntryFor (t.headers.getD c "")) = 0 := by
      rw [fillStep_snd _ _ _ (detect_missing_keys_nodup t), List.countP_map]
      refine List.countP_eq_zero.mpr (fun cn hcn => ?_)
      rcases List.mem_filter.mp hcn with ⟨hmem, hcond⟩
      simp only [Function.comp, isFillEntryFor, decide_eq_true_eq]
      intro hname
      have hlt : cn.1 < t.headers.length :=
        mem_detect_missing_lt (show (cn.1, cn.2) ∈ (detect t).missing by
          rw [Prod.mk.eta]; exact hmem)
      have hceq : cn.1 = c := getD_inj_of_nodup hhd hlt hcw hname
      rw [hceq, col_map_str, map_cellStr_str, h5] at hcond
      cases hcond
    rw [ha, hb, hcz, hd]
    rfl

theorem claim1_empty_column_skipped_witness :
    (1, 2) ∈ (detect ⟨["a", "b"], [["x", ""], ["y", ""]]⟩).missing ∧
    (["a", "b"] : List String).Nodup ∧
    (∀ cell ∈ col (cleanData ["a", "b"] [["x", ""], ["y", ""]]
        (detect ⟨["a", "b"], [["x", ""], ["y", ""]]⟩)).1 1 (Cell.str ""),
      cell = Cell.str "") ∧
    (cleanData ["a", "b"] [["x", ""], ["y", ""]]
      (detect ⟨["a", "b"], [["x", ""], ["y", ""]]⟩)).2.countP
      (isFillEntryFor ((["a", "b"] : List String).getD 1 "")) = 0 := by
  refine ⟨by decide, by decide, ?_, ?_⟩
  · exact (claim1_empty_column_skipped ⟨["a", "b"], [["x", ""], ["y", ""]]⟩ 1 2
      (by decide) (by decide) (by decide)).1
  · exact (claim1_empty_column_skipped ⟨["a", "b"], [["x", ""], ["y", ""]]⟩ 1 2
      (by decide) (by decide) (by decide)).2


/-! ## Claim C5: leading-zero restoration -/

lemma mem_dedupStep_of_mem (iss : Issues) {od : List (List String)} {r : List String}
    (h : r ∈ od) : r ∈ (dedupStep iss od).1 := by
  unfold dedupStep
  split_ifs
  · exact mem_dedupFirst_iff.mpr h
  · exact h

lemma stage2_col_trimFixed (t : Table) {c : Nat} (hcw : c < t.headers.length) :
    ∀ v ∈ col (stage2 t.headers t.rows (detect t)) c "", jsTrim v = v := by
  rw [stage2_eq]
  by_cases hmem : c ∈ (detect t).whitespace.map Prod.fst
  · rw [col_wsApply_mem (detect_ws_keys_nodup t) hmem hcw
      (allLen_dedupStep _ (allLen_normData _ _))]
    intro v hv
    rcases List.mem_map.mp hv with ⟨u, -, rfl⟩
    exact jsTrim_idem (replaceNBSP u)
  · rw [col_wsApply_not_mem hmem]
    intro v hv
    rcases mem_col.mp hv with ⟨r, hr, rfl⟩
    exact eq_trim_of_not_wsIssue (ws_unflagged hcw hmem r (mem_dedupStep _ hr))

lemma replaceNBSP_eq_self {s : String} (h : ∀ ch ∈ s.data, ch ≠ nbsp) :
    replaceNBSP s = s := by
  apply string_ext
  show s.data.map _ = s.data
  calc s.data.map (fun c => if c = nbsp then ' ' else c) = s.data.map id :=
    List.map_congr_left (fun ch hch => by rw [if_neg (h ch hch)]; rfl)
  _ = s.data := List.map_id _

lemma digit_string_mem_stage2 (t : Table) {c : Nat} (hcw : c < t.headers.length)
    {r : List String} (hr : r ∈ normData t.headers t.rows)
    (hlz : hasLeadingZero (r.getD c "") = true) :
    r.getD c "" ∈ col (stage2 t.headers t.rows (detect t)) c "" := by
  have hr1 : r ∈ (dedupStep (detect t) (normData t.headers t.rows)).1 :=
    mem_dedupStep_of_mem _ hr
  have hmem1 : r.getD c "" ∈ col (dedupStep (detect t) (normData t.headers t.rows)).1 c "" :=
    mem_col.mpr ⟨r, hr1, rfl⟩
  rcases hasLeadingZero_spec hlz with ⟨-, hdig, -⟩
  have hfix : wsClean (r.getD c "") = r.getD c "" := by
    unfold wsClean
    rw [replaceNBSP_eq_self (fun ch hch => digit_ne_nbsp (hdig ch hch))]
    exact jsTrim_eq_self_of_no_space (fun ch hch => isJsSpace_digit (hdig ch hch))
  rw [stage2_eq]
  by_cases hmem : c ∈ (detect t).whitespace.map Prod.fst
  · rw [col_wsApply_mem (detect_ws_keys_nodup t) hmem hcw
      (allLen_dedupStep _ (allLen_normData _ _))]
    have h2 : wsClean (r.getD c "") ∈
        (col (dedupStep (detect t) (normData t.headers t.rows)).1 c "").map wsClean :=
      List.mem_map.mpr ⟨_, hmem1, rfl⟩
    rwa [hfix] at h2
  · rw [col_wsApply_not_mem hmem]
    exact hmem1

/-- C5 counterexample: the column holds `" 123 "` (pre-cleaning length
5, the maximum) and `"07"`; whitespace fixing trims `" 123 "` to
`"123"` before the padding step, so after cleaning every value has
length 3, not the pre-cleaning maximum 5. -/
theorem claim5_counterexample :
    (0, "leading_zeros_lost") ∈ (detect ⟨["a"], [[" 123 "], ["07"]]⟩).leadingZeros ∧
    maxL (col (normData ["a"] [[" 123 "], ["07"]]) 0 "") = 5 ∧
    (cleanData ["a"] [[" 123 "], ["07"]] (detect ⟨["a"], [[" 123 "], ["07"]]⟩)).1 =
      [[Cell.str "123"], [Cell.str "007"]] ∧
    ("123" : String).length = 3 ∧ ("007" : String).length = 3 ∧ (3 : Nat) ≠ 5 := by
  refine ⟨by decide, by decide, by decide, by decide, by decide, by decide⟩

/-- C5 (amended): for every column flagged in the leadingZeros report,
after cleaning every value in that column is text of length equal to
the maximum length observed in that column entering the padding step
(after deduplication and whitespace fixing), each value being
left-padded with `'0'` to that length. -/
theorem claim5_pad_to_max (t : Table) (c : Nat) (m : String)
    (hc : (c, m) ∈ (detect t).leadingZeros) :
    ∀ cell ∈ col (cleanData t.headers t.rows (detect t)).1 c (Cell.str ""),
      ∃ v : String, cell = Cell.str v ∧
        v.length = maxL (col (stage2 t.headers t.rows (detect t)) c "") := by
  have hcw : c < t.headers.length := mem_detect_lz_lt hc
  rcases mem_detect_lz_any hc with ⟨r, hr, hlz⟩
  have hs0 : r.getD c "" ∈ col (stage2 t.headers t.rows (detect t)) c "" :=
    digit_string_mem_stage2 t hcw hr hlz
  have hs0len : 1 < (r.getD c "").length := (hasLeadingZero_spec hlz).2.2
  have hM2 : 2 ≤ maxL (col (stage2 t.headers t.rows (detect t)) c "") := by
    have := le_maxL_of_mem hs0
    omega
  have hcmem : c ∈ (detect t).leadingZeros.map Prod.fst :=
    List.mem_map.mpr ⟨(c, m), hc, rfl⟩
  have h3 : col (stage3 t.headers t.rows (detect t)) c "" =
      (col (stage2 t.headers t.rows (detect t)) c "").map
        (padStart (maxL (col (stage2 t.headers t.rows (detect t)) c "")) '0') := by
    rw [stage3_eq]
    exact col_lzApply_mem (detect_lz_keys_nodup t) hcmem hcw (allLen_stage2 _ _ _)
  have hlen3 : ∀ v ∈ col (stage3 t.headers t.rows (detect t)) c "",
      v.length = maxL (col (stage2 t.headers t.rows (detect t)) c "") := by
    rw [h3]
    intro v hv
    rcases List.mem_map.mp hv with ⟨u, hu, rfl⟩
    rw [padStart_length]
    have := le_maxL_of_mem hu
    omega
  have hfix3 : ∀ v ∈ col (stage3 t.headers t.rows (detect t)) c "", jsTrim v = v := by
    rw [h3]
    intro v hv
    rcases List.mem_map.mp hv with ⟨u, hu, rfl⟩
    exact jsTrim_padStart (stage2_col_trimFixed t hcw u hu) _
  have hne3 : ∀ v ∈ col (stage3 t.headers t.rows (detect t)) c "", v ≠ "" := by
    intro v hv heq
    have hl := hlen3 v hv
    rw [heq] at hl
    have : ("" : String).length = 0 := rfl
    omega
  intro cell hcell
  by_cases hmiss : c ∈ (detect t).missing.map Prod.fst
  · rcases List.mem_map.mp hmiss with ⟨p, hp, hfst⟩
    have hp2 : (c, p.2) ∈ (detect t).missing := by
      rw [show (c, p.2) = p from by rw [← hfst]]
      exact hp
    have hfill : (col (stage3 t.headers t.rows (detect t)) c "").filter
        (fun v => jsTrim v ≠ "") = col (stage3 t.headers t.rows (detect t)) c "" := by
      refine List.filter_eq_self.mpr (fun v hv => ?_)
      simp [hfix3 v hv, hne3 v hv]
    have hnef : (col (stage3 t.headers t.rows (detect t)) c "").filter
        (fun v => jsTrim v ≠ "") ≠ [] := by
      rw [hfill]
      intro h0
      have hmm : padStart (maxL (col (stage2 t.headers t.rows (detect t)) c "")) '0'
          (r.getD c "") ∈ col (stage3 t.headers t.rows (detect t)) c "" := by
        rw [h3]
        exact List.mem_map.mpr ⟨_, hs0, rfl⟩
      rw [h0] at hmm
      cases hmm
    rw [cleanData_fst,
      col_fillApply_mem (detect_missing_keys_nodup t) hp2 hcw
        (allLen_map_str (allLen_stage3 _ _ _)),
      col_map_str, fillColVals_str_of_ne hnef] at hcell
    rcases List.mem_map.mp hcell with ⟨v, hv, rfl⟩
    refine ⟨v, ?_, hlen3 v hv⟩
    rw [if_neg (by rw [hfix3 v hv]; exact hne3 v hv), hfix3 v hv]
  · rw [cleanData_fst, col_fillApply_not_mem hmiss, col_map_str] at hcell
    rcases List.mem_map.mp hcell with ⟨v, hv, rfl⟩
    exact ⟨v, rfl, hlen3 v hv⟩

theorem claim5_pad_to_max_witness :
    (0, "leading_zeros_lost") ∈ (detect ⟨["z"], [["007"], ["012"], ["5"]]⟩).leadingZeros ∧
    ∀ cell ∈ col (cleanData ["z"] [["007"], ["012"], ["5"]]
        (detect ⟨["z"], [["007"], ["012"], ["5"]]⟩)).1 0 (Cell.str ""),
      ∃ v : String, cell = Cell.str v ∧
        v.length = maxL (col (stage2 ["z"] [["007"], ["012"], ["5"]]
          (detect ⟨["z"], [["007"], ["012"], ["5"]]⟩)) 0 "") :=
  ⟨by decide,
   claim5_pad_to_max ⟨["z"], [["007"], ["012"], ["5"]]⟩ 0 "leading_zeros_lost" (by decide)⟩

end AutoCSV
